import Mathlib

/-! # Verification of ot/bregman.py (Bregman projections for regularized OT)

Shallow embedding of the solvers in ot/bregman.py: the plain Sinkhorn solver,
the log-stabilized Sinkhorn solver, the epsilon-scaling solver, the barycenter
solver, the unmixing solver, and the projection utilities projR / projC.

Scalars are modelled by the type Flt F: exact values of a linear ordered field
F together with the IEEE special values NaN, +infinity and -infinity.  Rounding
and overflow are not modelled (a finite value never overflows to infinity) and
negative zero is identified with zero, but the propagation of the special
values through arithmetic, comparisons (every comparison with NaN is false) and
the numpy-style reductions follows IEEE-754 / numpy semantics: x/0 is +-inf for
x != 0 and NaN for x = 0, 0 * inf is NaN, inf - inf is NaN, np.log 0 is -inf,
np.log of a negative number is NaN, np.exp (-inf) = 0.

The loop-based solvers are written as fuel-indexed recursions; the fuel is
always chosen at least numItermax + 2, which dominates the iteration count of
every while loop in the source (each iteration increments cpt and the loops
stop once cpt reaches numItermax), so the fuel never runs out before the
loop's own exit conditions fire.  The parts of the code that need no
exponential (the plain Sinkhorn iteration and projR / projC) are stated
generically over the field so that they can be evaluated on rational inputs;
the kernel K = exp(-M/reg) and the stabilized / barycenter solvers are
instantiated at F = Real using Real.exp and Real.log. -/

set_option maxHeartbeats 1000000

/-- IEEE-style scalar: an exact field value or one of the special values. -/
inductive Flt (F : Type) where
  | num : F → Flt F
  | nan : Flt F
  | inf : Flt F
  | ninf : Flt F
deriving DecidableEq

variable {F : Type} [LinearOrderedField F]

/-- IEEE addition on Flt. -/
def fltAdd : Flt F → Flt F → Flt F
  | Flt.nan, _ => Flt.nan
  | _, Flt.nan => Flt.nan
  | Flt.inf, Flt.ninf => Flt.nan
  | Flt.ninf, Flt.inf => Flt.nan
  | Flt.inf, _ => Flt.inf
  | _, Flt.inf => Flt.inf
  | Flt.ninf, _ => Flt.ninf
  | _, Flt.ninf => Flt.ninf
  | Flt.num a, Flt.num b => Flt.num (a + b)

/-- IEEE negation on Flt. -/
def fltNeg : Flt F → Flt F
  | Flt.num a => Flt.num (-a)
  | Flt.nan => Flt.nan
  | Flt.inf => Flt.ninf
  | Flt.ninf => Flt.inf

/-- IEEE subtraction on Flt. -/
def fltSub (a b : Flt F) : Flt F := fltAdd a (fltNeg b)

/-- IEEE multiplication on Flt (0 * inf = NaN). -/
def fltMul : Flt F → Flt F → Flt F
  | Flt.nan, _ => Flt.nan
  | _, Flt.nan => Flt.nan
  | Flt.num a, Flt.num b => Flt.num (a * b)
  | Flt.inf, Flt.num b => if b = 0 then Flt.nan else if 0 < b then Flt.inf else Flt.ninf
  | Flt.num a, Flt.inf => if a = 0 then Flt.nan else if 0 < a then Flt.inf else Flt.ninf
  | Flt.ninf, Flt.num b => if b = 0 then Flt.nan else if 0 < b then Flt.ninf else Flt.inf
  | Flt.num a, Flt.ninf => if a = 0 then Flt.nan else if 0 < a then Flt.ninf else Flt.inf
  | Flt.inf, Flt.inf => Flt.inf
  | Flt.inf, Flt.ninf => Flt.ninf
  | Flt.ninf, Flt.inf => Flt.ninf
  | Flt.ninf, Flt.ninf => Flt.inf

/-- IEEE division on Flt (x/0 = +-inf for x != 0, 0/0 = NaN, x/inf = 0). -/
def fltDiv : Flt F → Flt F → Flt F
  | Flt.nan, _ => Flt.nan
  | _, Flt.nan => Flt.nan
  | Flt.num a, Flt.num b =>
      if b = 0 then (if a = 0 then Flt.nan else if 0 < a then Flt.inf else Flt.ninf)
      else Flt.num (a / b)
  | Flt.num _, Flt.inf => Flt.num 0
  | Flt.num _, Flt.ninf => Flt.num 0
  | Flt.inf, Flt.num b => if 0 ≤ b then Flt.inf else Flt.ninf
  | Flt.ninf, Flt.num b => if 0 ≤ b then Flt.ninf else Flt.inf
  | Flt.inf, Flt.inf => Flt.nan
  | Flt.inf, Flt.ninf => Flt.nan
  | Flt.ninf, Flt.inf => Flt.nan
  | Flt.ninf, Flt.ninf => Flt.nan

/-- IEEE absolute value on Flt. -/
def fltAbs : Flt F → Flt F
  | Flt.num a => Flt.num |a|
  | Flt.nan => Flt.nan
  | Flt.inf => Flt.inf
  | Flt.ninf => Flt.inf

/-- IEEE strict comparison a < b (false whenever NaN is involved). -/
def fltLtb : Flt F → Flt F → Bool
  | Flt.nan, _ => false
  | _, Flt.nan => false
  | Flt.num a, Flt.num b => decide (a < b)
  | _, Flt.ninf => false
  | Flt.ninf, _ => true
  | Flt.inf, _ => false
  | Flt.num _, Flt.inf => true

/-- IEEE comparison a <= b (false whenever NaN is involved). -/
def fltLeb : Flt F → Flt F → Bool
  | Flt.nan, _ => false
  | _, Flt.nan => false
  | Flt.num a, Flt.num b => decide (a ≤ b)
  | Flt.ninf, _ => true
  | _, Flt.ninf => false
  | _, Flt.inf => true
  | Flt.inf, _ => false

/-- Test x == 0 in IEEE semantics (NaN == 0 and +-inf == 0 are false). -/
def fltEqZerob : Flt F → Bool
  | Flt.num a => decide (a = 0)
  | _ => false

/-- np.isnan on a scalar. -/
def fltIsNanb : Flt F → Bool
  | Flt.nan => true
  | _ => false

/-- Binary maximum with numpy's NaN propagation (np.max reduction). -/
def fltMaxv : Flt F → Flt F → Flt F
  | Flt.nan, _ => Flt.nan
  | _, Flt.nan => Flt.nan
  | a, b => if fltLtb a b then b else a

/-- Sum of a list of Flt values (np.dot / np.sum reduction; empty sum is 0). -/
def vsum (l : List (Flt F)) : Flt F := l.foldr fltAdd (Flt.num 0)

/-- Lift a vector of field values into Flt. -/
def numVec {n : Nat} (a : Fin n → F) : Fin n → Flt F := fun i => Flt.num (a i)

/-- Lift a matrix of field values into Flt. -/
def numMat {n m : Nat} (A : Fin n → Fin m → F) : Fin n → Fin m → Flt F :=
  fun i j => Flt.num (A i j)

/-- Matrix-vector product np.dot(K, v). -/
def matVecF {n m : Nat} (K : Fin n → Fin m → Flt F) (v : Fin m → Flt F) : Fin n → Flt F :=
  fun i => vsum (List.ofFn fun j => fltMul (K i j) (v j))

/-- Transposed matrix-vector product np.dot(K.T, u). -/
def matTvecF {n m : Nat} (K : Fin n → Fin m → Flt F) (u : Fin n → Flt F) : Fin m → Flt F :=
  fun j => vsum (List.ofFn fun i => fltMul (K i j) (u i))

/-- Matrix-matrix product np.dot(A, B). -/
def matMulF {n m p : Nat} (A : Fin n → Fin m → Flt F) (B : Fin m → Fin p → Flt F) :
    Fin n → Fin p → Flt F :=
  fun i k => vsum (List.ofFn fun j => fltMul (A i j) (B j k))

/-- np.diag of a vector. -/
def diagMatF {n : Nat} (d : Fin n → Flt F) : Fin n → Fin n → Flt F :=
  fun i j => if j = i then d i else Flt.num 0

/-- Elementwise division of vectors (np.divide / the / operator). -/
def vecDivF {n : Nat} (x y : Fin n → Flt F) : Fin n → Flt F := fun i => fltDiv (x i) (y i)

/-- Elementwise subtraction of vectors. -/
def vecSubF {n : Nat} (x y : Fin n → Flt F) : Fin n → Flt F := fun i => fltSub (x i) (y i)

/-- Column sums np.sum(T, axis=0). -/
def colSumsF {n m : Nat} (T : Fin n → Fin m → Flt F) : Fin m → Flt F :=
  fun j => vsum (List.ofFn fun i => T i j)

/-- Row sums np.sum(T, axis=1). -/
def rowSumsF {n m : Nat} (T : Fin n → Fin m → Flt F) : Fin n → Flt F :=
  fun i => vsum (List.ofFn fun j => T i j)

/-- Squared euclidean norm np.linalg.norm(x)**2 of a vector.  In exact
arithmetic (sqrt s)^2 = s for the nonnegative sum of squares s, and with the
special values sqrt propagates NaN and +inf unchanged, so the norm-then-square
of the source equals the plain sum of squares. -/
def sqnormV {m : Nat} (x : Fin m → Flt F) : Flt F :=
  vsum (List.ofFn fun j => fltMul (x j) (x j))

/-- np.any(np.isnan(u)). -/
def anyNanV {n : Nat} (u : Fin n → Flt F) : Bool := (List.ofFn u).any fltIsNanb

/-- np.any(w == 0). -/
def anyZeroV {n : Nat} (w : Fin n → Flt F) : Bool := (List.ofFn w).any fltEqZerob

/-- np.abs(u).max(): maximum of absolute values, NaN-propagating. -/
def vmaxAbs {n : Nat} (u : Fin n → Flt F) : Flt F :=
  (List.ofFn fun i => fltAbs (u i)).foldl fltMaxv Flt.ninf

/-! ## Plain Sinkhorn solver (ot.bregman.sinkhorn, lines 83-145)

The iteration state after the kernel K and the row-rescaled kernel Kp have
been computed.  warn counts the console warnings printed by the numerical
failure guard, errLog is the recorded error trace (the log dictionary). -/

@[ext]
structure SinkSt (F : Type) (n m : Nat) where
  u : Fin n → Flt F
  v : Fin m → Flt F
  uprev : Fin n → Flt F
  vprev : Fin m → Flt F
  err : Flt F
  cpt : Nat
  warn : Nat
  errLog : List (Flt F)

/-- Initial state: u = ones(Nini)/Nini, v = ones(Nfin)/Nfin,
uprev = vprev = zeros, cpt = 0, err = 1 (lines 97-115).  The source sizes
vprev as np.zeros(Nini); since vprev is only read after it has been
overwritten by a v of length Nfin, the initial size slip is unobservable and
vprev is modelled with length Nfin. -/
def sinkhornInitSt (F : Type) [LinearOrderedField F] (n m : Nat) : SinkSt F n m :=
  { u := fun _ => Flt.num (1 / (n : F))
    v := fun _ => Flt.num (1 / (m : F))
    uprev := fun _ => Flt.num 0
    vprev := fun _ => Flt.num 0
    err := Flt.num 1
    cpt := 0
    warn := 0
    errLog := [] }

/-- The transport plan np.dot(np.diag(u), np.dot(K, np.diag(v))) (line 131). -/
def sinkhornPlanOf {n m : Nat} (K : Fin n → Fin m → Flt F) (u : Fin n → Flt F)
    (v : Fin m → Flt F) : Fin n → Fin m → Flt F :=
  matMulF (diagMatF u) (matMulF K (diagMatF v))

/-- The tracked error np.linalg.norm(np.sum(transp,axis=0)-b)**2 (line 132). -/
def sinkhornErr {n m : Nat} (b : Fin m → Flt F) (K : Fin n → Fin m → Flt F)
    (u : Fin n → Flt F) (v : Fin m → Flt F) : Flt F :=
  sqnormV (vecSubF (colSumsF (sinkhornPlanOf K u v)) b)

/-- The numerical-failure guard of line 117:
np.any(np.dot(K.T,u)==0) or np.any(np.isnan(u)) or np.any(np.isnan(v)). -/
def sinkhornGuard {n m : Nat} (K : Fin n → Fin m → Flt F) (s : SinkSt F n m) : Bool :=
  anyZeroV (matTvecF K s.u) || anyNanV s.u || anyNanV s.v

/-- The while condition of line 116: err > stopThr and cpt < numItermax. -/
def sinkhornWhileCond {n m : Nat} (stopThr : F) (numItermax : Nat) (s : SinkSt F n m) : Bool :=
  fltLtb (Flt.num stopThr) s.err && decide (s.cpt < numItermax)

/-- Lines 120-124: print a warning, roll u and v back to the previous iterate
when at least one iteration has completed, and break out of the loop. -/
def sinkhornRollback {n m : Nat} (s : SinkSt F n m) : SinkSt F n m :=
  { s with u := if s.cpt ≠ 0 then s.uprev else s.u
           v := if s.cpt ≠ 0 then s.vprev else s.v
           warn := s.warn + 1 }

/-- One non-aborted loop iteration (lines 125-140): save the previous iterate,
update v = b/(K.T u) and u = 1/(Kp v), recompute the error (appending it to
the log) every 10th iteration, and increment cpt. -/
def sinkhornBody {n m : Nat} (b : Fin m → Flt F) (K Kp : Fin n → Fin m → Flt F)
    (s : SinkSt F n m) : SinkSt F n m :=
  let v1 := vecDivF b (matTvecF K s.u)
  let u1 := vecDivF (fun _ => Flt.num 1) (matVecF Kp v1)
  let recompute := s.cpt % 10 == 0
  let err1 := if recompute then sinkhornErr b K u1 v1 else s.err
  { u := u1
    v := v1
    uprev := s.u
    vprev := s.v
    err := err1
    cpt := s.cpt + 1
    warn := s.warn
    errLog := if recompute then s.errLog ++ [err1] else s.errLog }

/-- The while loop of lines 116-140 as a fuel-indexed recursion. -/
def sinkhornLoop {n m : Nat} (b : Fin m → Flt F) (K Kp : Fin n → Fin m → Flt F)
    (stopThr : F) (numItermax : Nat) : Nat → SinkSt F n m → SinkSt F n m
  | 0, s => s
  | fuel + 1, s =>
    if sinkhornWhileCond stopThr numItermax s then
      if sinkhornGuard K s then sinkhornRollback s
      else sinkhornLoop b K Kp stopThr numItermax fuel (sinkhornBody b K Kp s)
    else s

/-- Lines 87-90 (and 235-238, 423-426): an empty marginal is replaced by the
uniform distribution np.ones(k)/k sized to the corresponding axis of M. -/
noncomputable def margList (a : List ℝ) (k : Nat) : List ℝ :=
  if a.length = 0 then List.replicate k ((1 : ℝ) / (k : ℝ)) else a

/-- The (possibly defaulted) marginal list read as a vector of size k. -/
noncomputable def margVec (a : List ℝ) (k : Nat) : Fin k → ℝ :=
  fun i => (margList a k).getD i 0

/-- The kernel K = np.exp(-M/reg) (line 109). -/
noncomputable def expKR {n m : Nat} (M : Fin n → Fin m → ℝ) (reg : ℝ) :
    Fin n → Fin m → Flt ℝ :=
  numMat (fun i j => Real.exp (-M i j / reg))

/-- Kp = np.dot(np.diag(1/a), K) (line 112). -/
def mkKp {n m : Nat} (a : Fin n → F) (K : Fin n → Fin m → Flt F) :
    Fin n → Fin m → Flt F :=
  matMulF (diagMatF (fun i => fltDiv (Flt.num 1) (Flt.num (a i)))) K

/-- The iteration update u = 1./np.dot(Kp, v) of line 128, as a function of the
marginal a, the kernel K and the current v (with Kp = np.dot(np.diag(1/a), K)). -/
def sinkhornUpdateU {n m : Nat} (a : Fin n → F) (K : Fin n → Fin m → F)
    (v : Fin m → F) : Fin n → Flt F :=
  vecDivF (fun _ => Flt.num 1) (matVecF (mkKp a (numMat K)) (numVec v))

/-- Reference update following the specification words: u = a / (K v). -/
def specSinkhornUpdateU {n m : Nat} (a : Fin n → F) (K : Fin n → Fin m → F)
    (v : Fin m → F) : Fin n → Flt F :=
  vecDivF (numVec a) (matVecF (numMat K) (numVec v))

/-- The final loop state of ot.bregman.sinkhorn. -/
noncomputable def sinkhornFinalState {n m : Nat} (a b : List ℝ) (M : Fin n → Fin m → ℝ)
    (reg : ℝ) (numItermax : Nat) (stopThr : ℝ) : SinkSt ℝ n m :=
  let aR := margVec a n
  let bR := margVec b m
  let K := expKR M reg
  let Kp := mkKp aR K
  sinkhornLoop (numVec bR) K Kp stopThr numItermax (numItermax + 1) (sinkhornInitSt ℝ n m)

/-- The transport plan returned by ot.bregman.sinkhorn (lines 142-145). -/
noncomputable def sinkhornPlan {n m : Nat} (a b : List ℝ) (M : Fin n → Fin m → ℝ)
    (reg : ℝ) (numItermax : Nat) (stopThr : ℝ) : Fin n → Fin m → Flt ℝ :=
  sinkhornPlanOf (expKR M reg) (sinkhornFinalState a b M reg numItermax stopThr).u
    (sinkhornFinalState a b M reg numItermax stopThr).v

/-! ## Stabilized Sinkhorn solver (ot.bregman.sinkhorn_stabilized, lines 231-329) -/

/-- np.exp on Flt at F = Real (np.exp(-inf) = 0, np.exp(inf) = inf). -/
noncomputable def fltExpR : Flt ℝ → Flt ℝ
  | Flt.num x => Flt.num (Real.exp x)
  | Flt.nan => Flt.nan
  | Flt.inf => Flt.inf
  | Flt.ninf => Flt.num 0

/-- np.log on Flt at F = Real (np.log 0 = -inf, np.log x = NaN for x < 0). -/
noncomputable def fltLogR : Flt ℝ → Flt ℝ
  | Flt.num x => if x = 0 then Flt.ninf else if 0 < x then Flt.num (Real.log x) else Flt.nan
  | Flt.nan => Flt.nan
  | Flt.inf => Flt.inf
  | Flt.ninf => Flt.nan

/-- get_K(alpha, beta) = np.exp(-(M - alpha[:,None] - beta[None,:])/reg)
(lines 261-263); alpha and beta live in Flt because absorption can push them
to -inf when a scaling factor underflows to 0. -/
noncomputable def stabGetK {n m : Nat} (M : Fin n → Fin m → ℝ) (reg : ℝ)
    (alpha : Fin n → Flt ℝ) (beta : Fin m → Flt ℝ) : Fin n → Fin m → Flt ℝ :=
  fun i j =>
    fltExpR (fltDiv (fltNeg (fltSub (fltSub (Flt.num (M i j)) (alpha i)) (beta j)))
      (Flt.num reg))

/-- get_Gamma(alpha, beta, u, v)
= np.exp(-(M - alpha[:,None] - beta[None,:])/reg + np.log(u)[:,None] + np.log(v)[None,:])
(lines 265-267). -/
noncomputable def stabGetGamma {n m : Nat} (M : Fin n → Fin m → ℝ) (reg : ℝ)
    (alpha : Fin n → Flt ℝ) (beta : Fin m → Flt ℝ) (u : Fin n → Flt ℝ)
    (v : Fin m → Flt ℝ) : Fin n → Fin m → Flt ℝ :=
  fun i j =>
    fltExpR (fltAdd (fltAdd
      (fltDiv (fltNeg (fltSub (fltSub (Flt.num (M i j)) (alpha i)) (beta j))) (Flt.num reg))
      (fltLogR (u i))) (fltLogR (v j)))

/-- Iteration state of the stabilized solver.  loopFlag is the variable loop of
the source; K is recomputed only when the potentials are updated, so it is part
of the state. -/
@[ext]
structure StabSt (n m : Nat) where
  alpha : Fin n → Flt ℝ
  beta : Fin m → Flt ℝ
  u : Fin n → Flt ℝ
  v : Fin m → Flt ℝ
  uprev : Fin n → Flt ℝ
  vprev : Fin m → Flt ℝ
  K : Fin n → Fin m → Flt ℝ
  err : Flt ℝ
  cpt : Nat
  loopFlag : Bool
  warn : Nat
  errLog : List (Flt ℝ)

/-- Initial state (lines 250-275): alpha, beta from the warmstart (zeros when
absent), u and v uniform, uprev and vprev zeros, K = get_K(alpha, beta),
loop = 1, cpt = 0, err = 1. -/
noncomputable def stabInitSt {n m : Nat} (M : Fin n → Fin m → ℝ) (reg : ℝ)
    (warmstart : Option ((Fin n → Flt ℝ) × (Fin m → Flt ℝ))) : StabSt n m :=
  let alpha0 : Fin n → Flt ℝ := match warmstart with
    | none => fun _ => Flt.num 0
    | some w => w.1
  let beta0 : Fin m → Flt ℝ := match warmstart with
    | none => fun _ => Flt.num 0
    | some w => w.2
  { alpha := alpha0
    beta := beta0
    u := fun _ => Flt.num (1 / (n : ℝ))
    v := fun _ => Flt.num (1 / (m : ℝ))
    uprev := fun _ => Flt.num 0
    vprev := fun _ => Flt.num 0
    K := stabGetK M reg alpha0 beta0
    err := Flt.num 1
    cpt := 0
    loopFlag := true
    warn := 0
    errLog := [] }

/-- The absorption block of lines 278-281: when np.abs(u).max() > tau or
np.abs(v).max() > tau, fold the scaling factors into the potentials
(alpha += reg*log(u), beta += reg*log(v)), reset u and v to uniform and
recompute K = get_K(alpha, beta). -/
noncomputable def stabAbsorb {n m : Nat} (M : Fin n → Fin m → ℝ) (reg tau : ℝ)
    (s : StabSt n m) : StabSt n m :=
  if fltLtb (Flt.num tau) (vmaxAbs s.u) || fltLtb (Flt.num tau) (vmaxAbs s.v) then
    let alpha1 := fun i => fltAdd (s.alpha i) (fltMul (Flt.num reg) (fltLogR (s.u i)))
    let beta1 := fun j => fltAdd (s.beta j) (fltMul (Flt.num reg) (fltLogR (s.v j)))
    { s with alpha := alpha1, beta := beta1
             u := fun _ => Flt.num (1 / (n : ℝ))
             v := fun _ => Flt.num (1 / (m : ℝ))
             K := stabGetK M reg alpha1 beta1 }
  else s

/-- Lines 283-319 after the absorption block: save the previous iterate,
update v = b/(K.T u) and u = a/(K v), every print_period iterations recompute
the error from get_Gamma (appending it to the log), set loop = False when
err <= stopThr or cpt >= numItermax, and on a numerical failure print a
warning, roll back (when cpt != 0) and break (modelled by clearing loopFlag
without incrementing cpt). -/
noncomputable def stabUpdate {n m : Nat} (a : Fin n → ℝ) (b : Fin m → ℝ)
    (M : Fin n → Fin m → ℝ) (reg stopThr : ℝ) (numItermax printPeriod : Nat)
    (s1 : StabSt n m) : StabSt n m :=
  let v1 := vecDivF (numVec b) (matTvecF s1.K s1.u)
  let u1 := vecDivF (numVec a) (matVecF s1.K v1)
  let recompute := s1.cpt % printPeriod == 0
  let err1 := if recompute
    then sqnormV (vecSubF (colSumsF (stabGetGamma M reg s1.alpha s1.beta u1 v1)) (numVec b))
    else s1.err
  let log1 := if recompute then s1.errLog ++ [err1] else s1.errLog
  let flag1 := if fltLeb err1 (Flt.num stopThr) then false else s1.loopFlag
  let flag2 := if numItermax ≤ s1.cpt then false else flag1
  if anyZeroV (matTvecF s1.K u1) || anyNanV u1 || anyNanV v1 then
    { alpha := s1.alpha, beta := s1.beta
      u := if s1.cpt ≠ 0 then s1.u else u1
      v := if s1.cpt ≠ 0 then s1.v else v1
      uprev := s1.u, vprev := s1.v, K := s1.K
      err := err1, cpt := s1.cpt, loopFlag := false, warn := s1.warn + 1, errLog := log1 }
  else
    { alpha := s1.alpha, beta := s1.beta, u := u1, v := v1, uprev := s1.u, vprev := s1.v
      K := s1.K, err := err1, cpt := s1.cpt + 1, loopFlag := flag2, warn := s1.warn
      errLog := log1 }

/-- One iteration of the while loop of lines 276-319: the absorption block
followed by the update, error bookkeeping and exit checks. -/
noncomputable def stabStep {n m : Nat} (a : Fin n → ℝ) (b : Fin m → ℝ)
    (M : Fin n → Fin m → ℝ) (reg tau stopThr : ℝ) (numItermax printPeriod : Nat)
    (s : StabSt n m) : StabSt n m :=
  stabUpdate a b M reg stopThr numItermax printPeriod (stabAbsorb M reg tau s)

/-- The while loop of lines 276-319 as a fuel-indexed recursion. -/
noncomputable def stabLoop {n m : Nat} (a : Fin n → ℝ) (b : Fin m → ℝ)
    (M : Fin n → Fin m → ℝ) (reg tau stopThr : ℝ) (numItermax printPeriod : Nat) :
    Nat → StabSt n m → StabSt n m
  | 0, s => s
  | fuel + 1, s =>
    if s.loopFlag then
      stabLoop a b M reg tau stopThr numItermax printPeriod fuel
        (stabStep a b M reg tau stopThr numItermax printPeriod s)
    else s

/-- The final loop state of ot.bregman.sinkhorn_stabilized. -/
noncomputable def stabFinalState {n m : Nat} (a b : List ℝ) (M : Fin n → Fin m → ℝ)
    (reg : ℝ) (numItermax : Nat) (tau stopThr : ℝ)
    (warmstart : Option ((Fin n → Flt ℝ) × (Fin m → Flt ℝ))) (printPeriod : Nat) :
    StabSt n m :=
  stabLoop (margVec a n) (margVec b m) M reg tau stopThr numItermax printPeriod
    (numItermax + 2) (stabInitSt M reg warmstart)

/-- Result of ot.bregman.sinkhorn_stabilized: the plan get_Gamma and, when
logging is requested, the consolidated potentials
log['alpha'] = alpha + reg*np.log(u) and log['beta'] = beta + reg*np.log(v)
together with the error trace (lines 321-329). -/
structure StabResult (n m : Nat) where
  Gamma : Fin n → Fin m → Flt ℝ
  alphaOut : Fin n → Flt ℝ
  betaOut : Fin m → Flt ℝ
  errLog : List (Flt ℝ)

/-- ot.bregman.sinkhorn_stabilized (the log=True return shape; with log=False
only the Gamma component is returned). -/
noncomputable def sinkhornStabilized {n m : Nat} (a b : List ℝ) (M : Fin n → Fin m → ℝ)
    (reg : ℝ) (numItermax : Nat) (tau stopThr : ℝ)
    (warmstart : Option ((Fin n → Flt ℝ) × (Fin m → Flt ℝ))) (printPeriod : Nat) :
    StabResult n m :=
  let s := stabFinalState a b M reg numItermax tau stopThr warmstart printPeriod
  { Gamma := stabGetGamma M reg s.alpha s.beta s.u s.v
    alphaOut := fun i => fltAdd (s.alpha i) (fltMul (Flt.num reg) (fltLogR (s.u i)))
    betaOut := fun j => fltAdd (s.beta j) (fltMul (Flt.num reg) (fltLogR (s.v j)))
    errLog := s.errLog }

/-! ## Epsilon-scaling solver (ot.bregman.sinkhorn_epsilon_scaling, lines 419-494) -/

/-- Line 433: numItermin = 35. -/
def numItermin : Nat := 35

/-- Line 434: numItermax = max(numItermin, numItermax). -/
def epsNumItermax (numItermax : Nat) : Nat := max numItermin numItermax

/-- get_reg(n) = (epsilon0 - reg)*np.exp(-n) + reg (lines 453-454). -/
noncomputable def epsGetReg (reg epsilon0 : ℝ) (cpt : Nat) : ℝ :=
  (epsilon0 - reg) * Real.exp (-(cpt : ℝ)) + reg

/-- Outer iteration state of the epsilon-scaling solver. -/
@[ext]
structure EpsSt (n m : Nat) where
  alpha : Fin n → Flt ℝ
  beta : Fin m → Flt ℝ
  G : Fin n → Fin m → Flt ℝ
  err : Flt ℝ
  cpt : Nat
  loopFlag : Bool
  errLog : List (Flt ℝ)

/-- The inner stabilized call of line 463.  The source writes the keyword tau
twice in this call (tau=1e3 and then tau=tau, which Python rejects as a
repeated keyword argument); the call is modelled with the first value,
tau = 1e3, together with numItermax = numInnerItermax, stopThr = 1e-9,
warmstart = (alpha, beta), print_period = 20 and log = True. -/
noncomputable def epsInner {n m : Nat} (a b : List ℝ) (M : Fin n → Fin m → ℝ)
    (reg epsilon0 : ℝ) (numInnerItermax : Nat) (s : EpsSt n m) : StabResult n m :=
  sinkhornStabilized a b M (epsGetReg reg epsilon0 s.cpt) numInnerItermax
    ((10 : ℝ) ^ (3 : Nat)) (1 / (10 : ℝ) ^ (9 : Nat)) (some (s.alpha, s.beta)) 20

/-- One outer iteration (lines 459-486): run the inner stabilized solve with
warm-started potentials, store its consolidated potentials for the next call,
set loop = False when cpt >= numItermax, every print_period iterations
recompute the outer error as the sum of both squared marginal deviations,
set loop = False when err <= stopThr and cpt > numItermin, increment cpt. -/
noncomputable def epsStep {n m : Nat} (a b : List ℝ) (M : Fin n → Fin m → ℝ)
    (reg epsilon0 : ℝ) (numInnerItermax numItermaxAdj : Nat) (stopThr : ℝ)
    (printPeriod : Nat) (s : EpsSt n m) : EpsSt n m :=
  let res := epsInner a b M reg epsilon0 numInnerItermax s
  let flag1 := if numItermaxAdj ≤ s.cpt then false else s.loopFlag
  let recompute := s.cpt % printPeriod == 0
  let err1 := if recompute
    then fltAdd
      (sqnormV (vecSubF (colSumsF res.Gamma) (numVec (margVec b m))))
      (sqnormV (vecSubF (rowSumsF res.Gamma) (numVec (margVec a n))))
    else s.err
  let log1 := if recompute then s.errLog ++ [err1] else s.errLog
  let flag2 := if fltLeb err1 (Flt.num stopThr) && decide (numItermin < s.cpt)
    then false else flag1
  { alpha := res.alphaOut, beta := res.betaOut, G := res.Gamma
    err := err1, cpt := s.cpt + 1, loopFlag := flag2, errLog := log1 }

/-- The outer while loop (lines 459-486) as a fuel-indexed recursion. -/
noncomputable def epsLoop {n m : Nat} (a b : List ℝ) (M : Fin n → Fin m → ℝ)
    (reg epsilon0 : ℝ) (numInnerItermax numItermaxAdj : Nat) (stopThr : ℝ)
    (printPeriod : Nat) : Nat → EpsSt n m → EpsSt n m
  | 0, s => s
  | fuel + 1, s =>
    if s.loopFlag then
      epsLoop a b M reg epsilon0 numInnerItermax numItermaxAdj stopThr printPeriod fuel
        (epsStep a b M reg epsilon0 numInnerItermax numItermaxAdj stopThr printPeriod s)
    else s

/-- The final outer state of ot.bregman.sinkhorn_epsilon_scaling: its cpt field
is the number of outer iterations executed, hence the number of inner
stabilized solves (the initial G is a placeholder that is overwritten in the
first iteration, since the loop always runs).  Before the loop an empty
marginal is replaced by the uniform distribution (lines 423-426) and the
warmstart initializes alpha, beta (zeros when absent, lines 442-445). -/
noncomputable def epsFinalState {n m : Nat} (a b : List ℝ) (M : Fin n → Fin m → ℝ)
    (reg : ℝ) (numItermax : Nat) (epsilon0 : ℝ) (numInnerItermax : Nat)
    (tau stopThr : ℝ) (warmstart : Option ((Fin n → Flt ℝ) × (Fin m → Flt ℝ))) :
    EpsSt n m :=
  let alpha0 : Fin n → Flt ℝ := match warmstart with
    | none => fun _ => Flt.num 0
    | some w => w.1
  let beta0 : Fin m → Flt ℝ := match warmstart with
    | none => fun _ => Flt.num 0
    | some w => w.2
  epsLoop (margList a n) (margList b m) M reg epsilon0 numInnerItermax
    (epsNumItermax numItermax) stopThr 10 (epsNumItermax numItermax + 2)
    { alpha := alpha0, beta := beta0, G := fun _ _ => Flt.num 0
      err := Flt.num 1, cpt := 0, loopFlag := true, errLog := [] }

/-- The transport plan returned by ot.bregman.sinkhorn_epsilon_scaling. -/
noncomputable def epsPlan {n m : Nat} (a b : List ℝ) (M : Fin n → Fin m → ℝ)
    (reg : ℝ) (numItermax : Nat) (epsilon0 : ℝ) (numInnerItermax : Nat)
    (tau stopThr : ℝ) (warmstart : Option ((Fin n → Flt ℝ) × (Fin m → Flt ℝ))) :
    Fin n → Fin m → Flt ℝ :=
  (epsFinalState a b M reg numItermax epsilon0 numInnerItermax tau stopThr warmstart).G

/-- The keyword arguments, in source order, of the inner sinkhorn_stabilized
call at line 463 of ot/bregman.py:
sinkhorn_stabilized(a, b, M, regi, numItermax=numInnerItermax, tau=1e3,
stopThr=1e-9, warmstart=(alpha,beta), verbose=False, print_period=20,
tau=tau, log=True). -/
def epsInnerKwargNames : List String :=
  ["numItermax", "tau", "stopThr", "warmstart", "verbose", "print_period", "tau", "log"]

/-! ## Kernel utilities and barycenter solver (lines 497-605)

The barycenter iteration involves exp, log and sqrt, so it is modelled over
the exact reals (the idealized-real semantics of the float program; it has no
NaN guard, so the special values play no role in its claims). -/

/-- geometricBar(weights, alldistribT) = np.exp(np.dot(np.log(alldistribT),
weights.T)) (lines 497-500); the assert on the weights length is a shape-level
precondition handled by the dimension interpreter below and is automatically
satisfied by the typed model. -/
noncomputable def geometricBar {d nA : Nat} (weights : Fin nA → ℝ)
    (alldistribT : Fin d → Fin nA → ℝ) : Fin d → ℝ :=
  fun i => Real.exp (∑ j, Real.log (alldistribT i j) * weights j)

/-- geometricMean(alldistribT) = np.exp(np.mean(np.log(alldistribT), axis=1))
(lines 502-504). -/
noncomputable def geometricMean {d nA : Nat} (alldistribT : Fin d → Fin nA → ℝ) :
    Fin d → ℝ :=
  fun i => Real.exp ((∑ j, Real.log (alldistribT i j)) / (nA : ℝ))

/-- np.std(X, axis=1): population standard deviation of row i across columns. -/
noncomputable def baryStdRow {d nA : Nat} (X : Fin d → Fin nA → ℝ) (i : Fin d) : ℝ :=
  Real.sqrt ((∑ j, (X i j - (∑ k, X i k) / (nA : ℝ)) ^ 2) / (nA : ℝ))

/-- The barycenter convergence error np.sum(np.std(UKv, axis=1)) (line 590). -/
noncomputable def baryErrOf {d nA : Nat} (X : Fin d → Fin nA → ℝ) : ℝ :=
  ∑ i, baryStdRow X i

/-- Iteration state of the barycenter solver. -/
@[ext]
structure BarySt (d nA : Nat) where
  u : Fin d → Fin nA → ℝ
  UKv : Fin d → Fin nA → ℝ
  err : ℝ
  cpt : Nat
  errLog : List ℝ

/-- The update UKv = u*np.dot(K, np.divide(A, np.dot(K, u))) of line 586. -/
noncomputable def baryUKvUpdate {d nA : Nat} (A : Fin d → Fin nA → ℝ)
    (K : Fin d → Fin d → ℝ) (u : Fin d → Fin nA → ℝ) : Fin d → Fin nA → ℝ :=
  fun i j => u i j * ∑ k, K i k * (A k j / ∑ l, K k l * u l j)

/-- One iteration of the while loop of lines 584-599: increment cpt, update
UKv and u = (u.T*geometricBar(weights,UKv)).T/UKv, and when cpt % 10 == 1
recompute the error as the summed per-row standard deviation of UKv across its
columns, appending it to the log. -/
noncomputable def baryStep {d nA : Nat} (A : Fin d → Fin nA → ℝ) (K : Fin d → Fin d → ℝ)
    (weights : Fin nA → ℝ) (s : BarySt d nA) : BarySt d nA :=
  let cpt1 := s.cpt + 1
  let UKv1 := baryUKvUpdate A K s.u
  let u1 : Fin d → Fin nA → ℝ := fun i j => s.u i j * geometricBar weights UKv1 i / UKv1 i j
  let recompute := cpt1 % 10 == 1
  let err1 := if recompute then baryErrOf UKv1 else s.err
  { u := u1
    UKv := UKv1
    err := err1
    cpt := cpt1
    errLog := if recompute then s.errLog ++ [err1] else s.errLog }

/-- The while condition of line 584: err > stopThr and cpt < numItermax. -/
def baryWhileCond {d nA : Nat} (stopThr : ℝ) (numItermax : Nat) (s : BarySt d nA) : Prop :=
  stopThr < s.err ∧ s.cpt < numItermax

noncomputable instance baryWhileCondDec {d nA : Nat} (stopThr : ℝ) (numItermax : Nat)
    (s : BarySt d nA) : Decidable (baryWhileCond stopThr numItermax s) := by
  unfold baryWhileCond; infer_instance

/-- The while loop of lines 584-599 as a fuel-indexed recursion. -/
noncomputable def baryLoop {d nA : Nat} (A : Fin d → Fin nA → ℝ) (K : Fin d → Fin d → ℝ)
    (weights : Fin nA → ℝ) (stopThr : ℝ) (numItermax : Nat) :
    Nat → BarySt d nA → BarySt d nA
  | 0, s => s
  | fuel + 1, s =>
    if baryWhileCond stopThr numItermax s then
      baryLoop A K weights stopThr numItermax fuel (baryStep A K weights s)
    else s

/-- The initial state of lines 578-582: cpt = 0, err = 1,
UKv = np.dot(K, np.divide(A.T, np.sum(K, axis=0)).T) and
u = (geometricMean(UKv)/UKv.T).T. -/
noncomputable def baryInitSt {d nA : Nat} (A : Fin d → Fin nA → ℝ)
    (K : Fin d → Fin d → ℝ) : BarySt d nA :=
  let UKv0 : Fin d → Fin nA → ℝ := fun i j => ∑ k, K i k * (A k j / ∑ l, K l k)
  { u := fun i j => geometricMean UKv0 i / UKv0 i j
    UKv := UKv0
    err := 1
    cpt := 0
    errLog := [] }

/-- The final loop state of ot.bregman.barycenter, with K = np.exp(-M/reg) and
the uniform default for an absent weights argument (lines 567-576). -/
noncomputable def baryFinalState {d nA : Nat} (A : Fin d → Fin nA → ℝ)
    (M : Fin d → Fin d → ℝ) (reg : ℝ) (weightsOpt : Option (Fin nA → ℝ))
    (numItermax : Nat) (stopThr : ℝ) : BarySt d nA :=
  let weights : Fin nA → ℝ := match weightsOpt with
    | none => fun _ => 1 / (nA : ℝ)
    | some w => w
  let K : Fin d → Fin d → ℝ := fun i j => Real.exp (-M i j / reg)
  baryLoop A K weights stopThr numItermax (numItermax + 1) (baryInitSt A K)

/-- The barycenter returned at lines 601-605: geometricBar(weights, UKv). -/
noncomputable def barycenterResult {d nA : Nat} (A : Fin d → Fin nA → ℝ)
    (M : Fin d → Fin d → ℝ) (reg : ℝ) (weightsOpt : Option (Fin nA → ℝ))
    (numItermax : Nat) (stopThr : ℝ) : Fin d → ℝ :=
  let weights : Fin nA → ℝ := match weightsOpt with
    | none => fun _ => 1 / (nA : ℝ)
    | some w => w
  geometricBar weights (baryFinalState A M reg weightsOpt numItermax stopThr).UKv

/-! ## projR and projC (lines 506-512), over any linear ordered field -/

/-- projR(gamma, p) = np.multiply(gamma.T, p/np.maximum(np.sum(gamma, axis=1),
1e-10)).T: row i of gamma is rescaled by p i over the clamped row sum. -/
def projR {nr nc : Nat} (gamma : Fin nr → Fin nc → F) (p : Fin nr → F) :
    Fin nr → Fin nc → F :=
  fun i j => gamma i j * (p i / max (∑ k, gamma i k) (1 / (10 : F) ^ (10 : Nat)))

/-- projC(gamma, q) = np.multiply(gamma, q/np.maximum(np.sum(gamma, axis=0),
1e-10)): column j of gamma is rescaled by q j over the clamped column sum. -/
def projC {nr nc : Nat} (gamma : Fin nr → Fin nc → F) (q : Fin nc → F) :
    Fin nr → Fin nc → F :=
  fun i j => gamma i j * (q j / max (∑ k, gamma k j) (1 / (10 : F) ^ (10 : Nat)))

/-! ## Dimension semantics of barycenter and unmix (for the input-contract
claims)

Shape mismatches between untyped numpy arrays cannot be expressed in the
Fin-typed value model, so the precondition behaviour of barycenter (lines
567-570) and unmix (lines 670-711) is captured by an abstract interpretation
of the same source lines on array dimensions: each numpy operation maps the
operand dimensions to the result dimensions or to a shape error, asserts map
to an assertion failure, and elementwise functions (exp, log) preserve
dimensions.  Values are irrelevant to this claim, so the interpreter runs the
prologue and the first loop iteration (all loop iterations act identically on
shapes). -/

/-- A Python-level failure: a failed assert statement (a precondition
violation) or a numpy shape mismatch error. -/
inductive PyErr where
  | assertFail : PyErr
  | shapeErr : PyErr
deriving DecidableEq

/-- numpy broadcast of two vector lengths. -/
def bcastLen (p q : Nat) : Except PyErr Nat :=
  if p = q then Except.ok p
  else if p = 1 then Except.ok q
  else if q = 1 then Except.ok p
  else Except.error PyErr.shapeErr

/-- Matrix dimensions (rows, columns). -/
abbrev MDim := Nat × Nat

/-- np.dot of two matrices on dimensions. -/
def dotMM (A B : MDim) : Except PyErr MDim :=
  if A.2 = B.1 then Except.ok (A.1, B.2) else Except.error PyErr.shapeErr

/-- np.dot of a matrix and a vector on dimensions. -/
def dotMV (A : MDim) (v : Nat) : Except PyErr Nat :=
  if A.2 = v then Except.ok A.1 else Except.error PyErr.shapeErr

/-- Elementwise matrix-vector operation (multiply / divide): the vector is
broadcast along the last axis. -/
def mulMV (A : MDim) (v : Nat) : Except PyErr MDim := do
  let c ← bcastLen A.2 v
  Except.ok (A.1, c)

/-- Elementwise matrix-matrix operation on dimensions. -/
def mulMM (A B : MDim) : Except PyErr MDim := do
  let r ← bcastLen A.1 B.1
  let c ← bcastLen A.2 B.2
  Except.ok (r, c)

/-- Transposition on dimensions. -/
def trD (A : MDim) : MDim := (A.2, A.1)

/-- projR on dimensions (row sums have length rows(gamma)). -/
def projRShape (g : MDim) (lp : Nat) : Except PyErr MDim := do
  let c ← bcastLen lp g.1
  let r ← mulMV (trD g) c
  Except.ok (trD r)

/-- projC on dimensions (column sums have length cols(gamma)). -/
def projCShape (g : MDim) (lq : Nat) : Except PyErr MDim := do
  let c ← bcastLen lq g.2
  mulMV g c

/-- geometricBar on dimensions: line 499 asserts
len(weights) == alldistribT.shape[1] and the result has length
alldistribT.shape[0]. -/
def geometricBarShape (wlen : Nat) (X : MDim) : Except PyErr Nat :=
  if wlen = X.2 then Except.ok X.1 else Except.error PyErr.assertFail

/-- Outcome of running a solver's prologue and (when the loop is reached) its
first fixed-point iteration on array dimensions. -/
structure ShapeRunInfo where
  preloopError : Option PyErr
  firstIterError : Option PyErr
deriving DecidableEq

/-- One iteration of the unmix while loop (lines 685-705) on dimensions.
State: dimensions of K and K0, and the length of old. -/
def unmixShapeBody (la : Nat) (D : MDim) (lh0 : Nat) (st : MDim × MDim × Nat) :
    Except PyErr (MDim × MDim × Nat) := do
  let K ← projCShape st.1 la
  let K0 ← projCShape st.2.1 lh0
  let newLen := K0.1
  let invNewLen ← dotMV D newLen
  let otherLen := K.1
  let deltaLen ← bcastLen otherLen invNewLen
  let K1 ← projRShape K deltaLen
  let ratioLen ← bcastLen deltaLen invNewLen
  let corrLen ← dotMV (trD D) ratioLen
  let K01 ← dotMM (corrLen, corrLen) K0
  let _ ← bcastLen K01.1 st.2.2
  Except.ok (K1, K01, newLen)

/-- ot.bregman.unmix on dimensions: the prologue (lines 672-683) computes
K = np.exp(-M/reg), K0 = np.exp(-M0/reg0) and old = h0 — elementwise
operations and an alias that perform no input validation and cannot fail —
and then the loop starts; the first loop iteration is where mismatched sizes
first meet a numpy operation. -/
def unmixShapeRun (la : Nat) (D M M0 : MDim) (lh0 : Nat) : ShapeRunInfo :=
  { preloopError := none
    firstIterError := match unmixShapeBody la D lh0 (M, M0, lh0) with
      | Except.ok _ => none
      | Except.error e => some e }

/-- The prologue of ot.bregman.barycenter after the weights check (lines
572-582) on dimensions, returning the dimensions of UKv and u. -/
def baryShapePrologue (A M : MDim) : Except PyErr (MDim × MDim) := do
  let colS := M.2
  let q ← mulMV (trD A) colS
  let UKv ← dotMM M (trD q)
  let u ← mulMV (trD UKv) UKv.1
  Except.ok (UKv, trD u)

/-- One iteration of the barycenter while loop (lines 584-599) on dimensions. -/
def baryShapeBody (A M : MDim) (wlen : Nat) (st : MDim × MDim) :
    Except PyErr (MDim × MDim) := do
  let Ku ← dotMM M st.2
  let q ← mulMM A Ku
  let KAq ← dotMM M q
  let UKv ← mulMM st.2 KAq
  let gbLen ← geometricBarShape wlen UKv
  let num1 ← mulMV (trD st.2) gbLen
  let u1 ← mulMM (trD num1) UKv
  Except.ok (UKv, u1)

/-- ot.bregman.barycenter on dimensions: line 567 defaults an absent weights
argument to ones(A.shape[1]), line 570 asserts
len(weights) == A.shape[1] before anything else runs; afterwards the prologue
and the first loop iteration execute. -/
def barycenterShapeRun (A M : MDim) (wl : Option Nat) : ShapeRunInfo :=
  let wlen := match wl with
    | none => A.2
    | some l => l
  match wl with
  | some l =>
    if l = A.2 then
      match baryShapePrologue A M with
      | Except.error e => { preloopError := some e, firstIterError := none }
      | Except.ok st =>
        match baryShapeBody A M wlen st with
        | Except.ok _ => { preloopError := none, firstIterError := none }
        | Except.error e => { preloopError := none, firstIterError := some e }
    else { preloopError := some PyErr.assertFail, firstIterError := none }
  | none =>
    match baryShapePrologue A M with
    | Except.error e => { preloopError := some e, firstIterError := none }
    | Except.ok st =>
      match baryShapeBody A M wlen st with
      | Except.ok _ => { preloopError := none, firstIterError := none }
      | Except.error e => { preloopError := none, firstIterError := some e }

/-! ## Auxiliary predicates and concrete inputs used by the verification -/

/-- The scalar is a finite number. -/
def isNumN (t : Flt F) : Prop := ∃ x, t = Flt.num x

/-- The scalar is a finite strictly positive number. -/
def isPosN (t : Flt F) : Prop := ∃ x, t = Flt.num x ∧ 0 < x

/-- The scalar is a finite nonnegative number. -/
def isNNegN (t : Flt F) : Prop := ∃ x, t = Flt.num x ∧ 0 ≤ x

/-- Positivity invariant of the plain Sinkhorn iteration: the scaling vectors
are finite and strictly positive, and so is the saved previous iterate once an
iteration has completed. -/
def sinkPosInv {n m : Nat} (s : SinkSt F n m) : Prop :=
  (∀ i, isPosN (s.u i)) ∧ (∀ j, isPosN (s.v j)) ∧
    (s.cpt = 0 ∨ ((∀ i, isPosN (s.uprev i)) ∧ (∀ j, isPosN (s.vprev j))))

/-- Positivity invariant of the stabilized Sinkhorn iteration: the potentials
are finite, the kernel is finite and strictly positive, and so are the scaling
vectors. -/
def stabPosInv {n m : Nat} (s : StabSt n m) : Prop :=
  (∀ i, isNumN (s.alpha i)) ∧ (∀ j, isNumN (s.beta j)) ∧
    (∀ i j, isPosN (s.K i j)) ∧ (∀ i, isPosN (s.u i)) ∧ (∀ j, isPosN (s.v j))

/-- Concrete degenerate marginal [0, 1]: nonnegative and summing to one, but
with a zero entry. -/
def cexList : List ℝ := [0, 1]

/-- Concrete symmetric nonnegative cost matrix: the zero 2x2 matrix. -/
def cexM2 : Fin 2 → Fin 2 → ℝ := fun _ _ => 0

/-- The lifted marginal vector of the degenerate run. -/
noncomputable def cexB : Fin 2 → Flt ℝ := numVec (margVec cexList 2)

/-- The kernel of the degenerate run: exp(0) = 1 everywhere. -/
noncomputable def cexK : Fin 2 → Fin 2 → Flt ℝ := expKR cexM2 1

/-- Kp of the degenerate run: its first row is +inf (1/0 from the zero entry
of the marginal a), its second row is finite. -/
noncomputable def cexKp : Fin 2 → Fin 2 → Flt ℝ := mkKp (margVec cexList 2) cexK

/-- The state after the first iteration of the degenerate run. -/
noncomputable def cexBody : SinkSt ℝ 2 2 :=
  sinkhornBody cexB cexK cexKp (sinkhornInitSt ℝ 2 2)

/-- A rational 1x1 mid-iteration state whose u holds a NaN, used to exercise
the numerical-failure guard of the plain solver on a concrete input. -/
def c2wSt : SinkSt ℚ 1 1 :=
  { u := fun _ => Flt.nan
    v := fun _ => Flt.num 1
    uprev := fun _ => Flt.num 2
    vprev := fun _ => Flt.num 3
    err := Flt.num 1
    cpt := 1
    warn := 0
    errLog := [] }

/-- Concrete 1x1 marginal for the guard run. -/
def c2wB : Fin 1 → Flt ℚ := fun _ => Flt.num 1

/-- Concrete 1x1 kernel for the guard run. -/
def c2wK : Fin 1 → Fin 1 → Flt ℚ := fun _ _ => Flt.num 1

/-! ## Helper lemmas on the scalar model -/

theorem fltAdd_num_num (a b : F) : fltAdd (Flt.num a) (Flt.num b) = Flt.num (a + b) := rfl

theorem fltMul_num_num (a b : F) : fltMul (Flt.num a) (Flt.num b) = Flt.num (a * b) := rfl

theorem fltNeg_num (a : F) : fltNeg (Flt.num a) = Flt.num (-a) := rfl

theorem fltSub_num_num (a b : F) :
    fltSub (Flt.num a) (Flt.num b) = Flt.num (a - b) := by
  simp [fltSub, fltNeg_num, fltAdd_num_num, sub_eq_add_neg]

theorem fltDiv_num_num (a : F) {b : F} (hb : b ≠ 0) :
    fltDiv (Flt.num a) (Flt.num b) = Flt.num (a / b) := by
  simp [fltDiv, hb]

theorem fltAdd_nan_left (x : Flt F) : fltAdd Flt.nan x = Flt.nan := by cases x <;> rfl

theorem fltAdd_nan_right (x : Flt F) : fltAdd x Flt.nan = Flt.nan := by cases x <;> rfl

theorem fltMul_nan_left (x : Flt F) : fltMul Flt.nan x = Flt.nan := by cases x <;> rfl

theorem fltMul_nan_right (x : Flt F) : fltMul x Flt.nan = Flt.nan := by cases x <;> rfl

theorem fltDiv_nan_right (x : Flt F) : fltDiv x Flt.nan = Flt.nan := by cases x <;> rfl

theorem fltLtb_nan_right (x : Flt F) : fltLtb x Flt.nan = false := by cases x <;> rfl

theorem fltLeb_num_num (a b : F) : fltLeb (Flt.num a) (Flt.num b) = decide (a ≤ b) := rfl

theorem vsum_nil : vsum ([] : List (Flt F)) = Flt.num 0 := rfl

theorem vsum_cons (x : Flt F) (l : List (Flt F)) : vsum (x :: l) = fltAdd x (vsum l) := rfl

theorem vsum_ofFn_num : ∀ {k : Nat} (g : Fin k → F),
    vsum (List.ofFn fun j => Flt.num (g j)) = Flt.num (∑ j, g j)
  | 0, g => by simp [vsum]
  | k + 1, g => by
    rw [List.ofFn_succ, vsum_cons, vsum_ofFn_num (fun i => g i.succ), fltAdd_num_num,
      Fin.sum_univ_succ]

theorem isPosN_num {x : F} (h : 0 < x) : isPosN (Flt.num x) := ⟨x, rfl, h⟩

theorem isNNegN_num {x : F} (h : 0 ≤ x) : isNNegN (Flt.num x) := ⟨x, rfl, h⟩

theorem isPosN.toNNeg {t : Flt F} (h : isPosN t) : isNNegN t := by
  obtain ⟨x, rfl, hx⟩ := h
  exact ⟨x, rfl, le_of_lt hx⟩

theorem isPosN_add {x y : Flt F} (hx : isPosN x) (hy : isPosN y) : isPosN (fltAdd x y) := by
  obtain ⟨a, rfl, ha⟩ := hx
  obtain ⟨b, rfl, hb⟩ := hy
  exact ⟨a + b, rfl, by linarith⟩

theorem isNNegN_add {x y : Flt F} (hx : isNNegN x) (hy : isNNegN y) :
    isNNegN (fltAdd x y) := by
  obtain ⟨a, rfl, ha⟩ := hx
  obtain ⟨b, rfl, hb⟩ := hy
  exact ⟨a + b, rfl, by linarith⟩

theorem isPosN_mul {x y : Flt F} (hx : isPosN x) (hy : isPosN y) : isPosN (fltMul x y) := by
  obtain ⟨a, rfl, ha⟩ := hx
  obtain ⟨b, rfl, hb⟩ := hy
  exact ⟨a * b, rfl, mul_pos ha hb⟩

theorem isNNegN_mul {x y : Flt F} (hx : isNNegN x) (hy : isNNegN y) :
    isNNegN (fltMul x y) := by
  obtain ⟨a, rfl, ha⟩ := hx
  obtain ⟨b, rfl, hb⟩ := hy
  exact ⟨a * b, rfl, mul_nonneg ha hb⟩

theorem isPosN_div {x y : Flt F} (hx : isPosN x) (hy : isPosN y) : isPosN (fltDiv x y) := by
  obtain ⟨a, rfl, ha⟩ := hx
  obtain ⟨b, rfl, hb⟩ := hy
  rw [fltDiv_num_num a (ne_of_gt hb)]
  exact ⟨a / b, rfl, div_pos ha hb⟩

theorem vsum_isNNegN : ∀ (l : List (Flt F)), (∀ x ∈ l, isNNegN x) → isNNegN (vsum l)
  | [], _ => ⟨0, rfl, le_refl 0⟩
  | x :: l, h => by
    rw [vsum_cons]
    exact isNNegN_add (h x (List.mem_cons_self x l))
      (vsum_isNNegN l fun y hy => h y (List.mem_cons_of_mem x hy))

theorem vsum_isPosN : ∀ (l : List (Flt F)), l ≠ [] → (∀ x ∈ l, isPosN x) → isPosN (vsum l)
  | [], hne, _ => absurd rfl hne
  | [x], _, h => by
    obtain ⟨a, hx, ha⟩ := h x (List.mem_cons_self x [])
    rw [vsum_cons, vsum_nil, hx, fltAdd_num_num]
    exact ⟨a + 0, rfl, by linarith⟩
  | x :: y :: l, _, h => by
    rw [vsum_cons]
    exact isPosN_add (h x (List.mem_cons_self x (y :: l)))
      (vsum_isPosN (y :: l) (List.cons_ne_nil y l)
        fun z hz => h z (List.mem_cons_of_mem x hz))

/-! ## Claim C1 -/

/-- C1: the inner sinkhorn_stabilized call of the epsilon-scaling solver
(line 463) supplies the keyword argument tau twice — tau=1e3 and tau=tau —
which Python rejects as a repeated keyword argument, so the claimed call with
tau = 1e3 (and any other inner call) never executes: the keyword list of the
call has a duplicate. -/
theorem claim_C1_inner_tau_repeated :
    epsInnerKwargNames.count "tau" = 2 ∧ ¬ epsInnerKwargNames.Nodup := by
  constructor
  · decide
  · decide

/-! ## Claim C3 -/

/-- C3 counterexample: calling unmix with a prior h0 of length 4 against a
prior cost matrix M0 of dimensions 3x3 and a dictionary D of dimensions 2x3
(mismatched sizes) raises no failure at all before the loop — the claimed
precondition violation before any fixed-point iteration does not happen; the
mismatch only surfaces as a numpy shape error inside the first iteration. -/
theorem claim_C3_counterexample :
    (unmixShapeRun 2 (2, 3) (2, 2) (3, 3) 4).preloopError = none ∧
      (unmixShapeRun 2 (2, 3) (2, 2) (3, 3) 4).firstIterError = some PyErr.shapeErr := by
  constructor
  · rfl
  · decide

/-- C3 (amended): the barycenter solver fails its assertion (a precondition
violation) before any iteration whenever the supplied weights length differs
from the number of columns of A; the unmixing solver performs no size
precondition check before its loop — for every input its prologue succeeds,
and mismatched sizes surface (if at all) only inside the first iteration. -/
theorem claim_C3_amended :
    (∀ (A M : MDim) (l : Nat), l ≠ A.2 →
        barycenterShapeRun A M (some l) =
          { preloopError := some PyErr.assertFail, firstIterError := none }) ∧
      ∀ (la : Nat) (D M M0 : MDim) (lh0 : Nat),
        (unmixShapeRun la D M M0 lh0).preloopError = none := by
  constructor
  · intro A M l hl
    simp [barycenterShapeRun, hl]
  · intro la D M M0 lh0
    rfl

/-- C3 amended, witness: at weights length 3 against a 2-column A the
barycenter run stops at the assert before the loop, and a concrete mismatched
unmix run (h0 of length 5 with a 3x3 prior cost) reaches its loop without any
precondition check. -/
theorem claim_C3_amended_witness :
    (3 ≠ (Prod.mk 2 2 : MDim).2) ∧
      barycenterShapeRun (2, 2) (2, 2) (some 3) =
        { preloopError := some PyErr.assertFail, firstIterError := none } ∧
      (unmixShapeRun 2 (2, 3) (2, 2) (3, 3) 5).preloopError = none :=
  ⟨by decide, (claim_C3_amended.1 (2, 2) (2, 2) 3 (by decide)),
    claim_C3_amended.2 2 (2, 3) (2, 2) (3, 3) 5⟩

/-! ## Claim C10 -/

/-- C10: projR and projC divide by the elementwise maximum of the row
(respectively column) sums of gamma with 1e-10, which is strictly positive for
every real matrix gamma, so no division by zero occurs; and whenever gamma is
nonnegative with all row (respectively column) sums at least 1e-10, the row
sums of projR(gamma, p) equal p and the column sums of projC(gamma, q)
equal q. -/
theorem claim_C10_proj_total_and_marginals {nr nc : Nat}
    (gamma : Fin nr → Fin nc → F) (p : Fin nr → F) (q : Fin nc → F)
    (hg : ∀ i j, 0 ≤ gamma i j)
    (hr : ∀ i, 1 / (10 : F) ^ (10 : Nat) ≤ ∑ k, gamma i k)
    (hc : ∀ j, 1 / (10 : F) ^ (10 : Nat) ≤ ∑ k, gamma k j) :
    (∀ (gamma' : Fin nr → Fin nc → F) (i : Fin nr),
        0 < max (∑ k, gamma' i k) (1 / (10 : F) ^ (10 : Nat))) ∧
      (∀ (gamma' : Fin nr → Fin nc → F) (j : Fin nc),
        0 < max (∑ k, gamma' k j) (1 / (10 : F) ^ (10 : Nat))) ∧
      (∀ i, ∑ j, projR gamma p i j = p i) ∧
      (∀ j, ∑ i, projC gamma q i j = q j) := by
  have heps : (0 : F) < 1 / (10 : F) ^ (10 : Nat) := by positivity
  refine ⟨fun gamma' i => lt_max_of_lt_right heps,
    fun gamma' j => lt_max_of_lt_right heps, fun i => ?_, fun j => ?_⟩
  · have hmax : max (∑ k, gamma i k) (1 / (10 : F) ^ (10 : Nat)) = ∑ k, gamma i k :=
      max_eq_left (hr i)
    have hne : (∑ k, gamma i k) ≠ 0 := ne_of_gt (lt_of_lt_of_le heps (hr i))
    simp only [projR, hmax]
    rw [← Finset.sum_mul]
    field_simp
  · have hmax : max (∑ k, gamma k j) (1 / (10 : F) ^ (10 : Nat)) = ∑ k, gamma k j :=
      max_eq_left (hc j)
    have hne : (∑ k, gamma k j) ≠ 0 := ne_of_gt (lt_of_lt_of_le heps (hc j))
    simp only [projC, hmax]
    rw [← Finset.sum_mul]
    field_simp

/-- C10 witness: the identity 2x2 matrix with marginals (1/2, 1/2) satisfies
the hypotheses, and the projections hit the prescribed marginals exactly. -/
theorem claim_C10_witness :
    ((∀ i j, (0 : ℚ) ≤ (1 : Fin 2 → Fin 2 → ℚ) i j) ∧
        (∀ i : Fin 2, 1 / (10 : ℚ) ^ (10 : Nat) ≤ ∑ k, (1 : Fin 2 → Fin 2 → ℚ) i k) ∧
        (∀ j : Fin 2, 1 / (10 : ℚ) ^ (10 : Nat) ≤ ∑ k, (1 : Fin 2 → Fin 2 → ℚ) k j)) ∧
      (∀ i, ∑ j, projR (1 : Fin 2 → Fin 2 → ℚ) (fun _ => 1 / 2) i j = 1 / 2) ∧
      (∀ j, ∑ i, projC (1 : Fin 2 → Fin 2 → ℚ) (fun _ => 1 / 2) i j = 1 / 2) := by
  have hsr : ∀ i : Fin 2, 1 / (10 : ℚ) ^ (10 : Nat) ≤ ∑ k, (1 : Fin 2 → Fin 2 → ℚ) i k := by
    intro i
    simp only [Fin.sum_univ_two, Pi.one_apply]
    norm_num
  have hsc : ∀ j : Fin 2, 1 / (10 : ℚ) ^ (10 : Nat) ≤ ∑ k, (1 : Fin 2 → Fin 2 → ℚ) k j := by
    intro j
    simp only [Fin.sum_univ_two, Pi.one_apply]
    norm_num
  have h := claim_C10_proj_total_and_marginals (1 : Fin 2 → Fin 2 → ℚ)
    (fun _ => 1 / 2) (fun _ => 1 / 2) (fun i j => by norm_num) hsr hsc
  exact ⟨⟨fun i j => by norm_num, hsr, hsc⟩, h.2.2.1, h.2.2.2⟩

/-! ## Claim C5 -/

theorem matVecF_num {n m : Nat} (A : Fin n → Fin m → F) (v : Fin m → F) (i : Fin n) :
    matVecF (numMat A) (numVec v) i = Flt.num (∑ j, A i j * v j) := by
  unfold matVecF numMat numVec
  simp only [fltMul_num_num]
  rw [vsum_ofFn_num]

theorem matTvecF_num {n m : Nat} (A : Fin n → Fin m → F) (u : Fin n → F) (j : Fin m) :
    matTvecF (numMat A) (numVec u) j = Flt.num (∑ i, A i j * u i) := by
  unfold matTvecF numMat numVec
  simp only [fltMul_num_num]
  rw [vsum_ofFn_num]

theorem mkKp_num_apply {n m : Nat} (a : Fin n → F) (A : Fin n → Fin m → F)
    (ha : ∀ t, a t ≠ 0) (i : Fin n) (j : Fin m) :
    mkKp a (numMat A) i j = Flt.num (1 / a i * A i j) := by
  unfold mkKp matMulF diagMatF numMat
  have h1 : ∀ t : Fin n,
      fltMul (if t = i then fltDiv (Flt.num 1) (Flt.num (a i)) else Flt.num 0)
          (Flt.num (A t j)) =
        Flt.num ((if t = i then 1 / a i else 0) * A t j) := by
    intro t
    by_cases ht : t = i
    · subst ht
      simp only [if_pos rfl, fltDiv_num_num 1 (ha t), fltMul_num_num, if_true]
    · simp only [if_neg ht, fltMul_num_num]
  simp only [h1]
  rw [vsum_ofFn_num]
  congr 1
  simp [ite_mul, Finset.sum_ite_eq']

/-- C5 (amended statement is the claim itself): for a marginal a with all
entries positive and any v with all entries of K v nonzero, the implemented
update u = 1/(Kp v) with Kp = diag(1/a) K equals the reference update
u = a/(K v) elementwise. -/
theorem claim_C5_update_refinement {n m : Nat} (a : Fin n → F) (K : Fin n → Fin m → F)
    (v : Fin m → F) (ha : ∀ i, 0 < a i) (hKv : ∀ i, (∑ j, K i j * v j) ≠ 0) :
    ∀ i, sinkhornUpdateU a K v i = specSinkhornUpdateU a K v i := by
  intro i
  have hane : ∀ t, a t ≠ 0 := fun t => ne_of_gt (ha t)
  have himpl : matVecF (mkKp a (numMat K)) (numVec v) i =
      Flt.num (1 / a i * ∑ j, K i j * v j) := by
    unfold matVecF numVec
    have h1 : ∀ j : Fin m, fltMul (mkKp a (numMat K) i j) (Flt.num (v j)) =
        Flt.num (1 / a i * (K i j * v j)) := by
      intro j
      rw [mkKp_num_apply a K hane i j, fltMul_num_num, mul_assoc]
    simp only [h1]
    rw [vsum_ofFn_num, Finset.mul_sum]
  unfold sinkhornUpdateU specSinkhornUpdateU vecDivF
  rw [himpl, matVecF_num]
  simp only [numVec]
  have h2 : 1 / a i ≠ 0 := one_div_ne_zero (hane i)
  have hprod : 1 / a i * (∑ j, K i j * v j) ≠ 0 := mul_ne_zero h2 (hKv i)
  rw [fltDiv_num_num 1 hprod, fltDiv_num_num (a i) (hKv i)]
  congr 1
  field_simp

/-- C5 witness: with a = (1), K = ((1)), v = (1) the hypotheses hold and the
two updates agree. -/
theorem claim_C5_update_refinement_witness :
    ((∀ i : Fin 1, (0 : ℚ) < (fun _ : Fin 1 => (1 : ℚ)) i) ∧
        (∀ i : Fin 1,
          (∑ j, (fun _ _ : Fin 1 => (1 : ℚ)) i j * (fun _ : Fin 1 => (1 : ℚ)) j) ≠ 0)) ∧
      ∀ i, sinkhornUpdateU (fun _ : Fin 1 => (1 : ℚ)) (fun _ _ : Fin 1 => (1 : ℚ))
          (fun _ : Fin 1 => (1 : ℚ)) i =
        specSinkhornUpdateU (fun _ : Fin 1 => (1 : ℚ)) (fun _ _ : Fin 1 => (1 : ℚ))
          (fun _ : Fin 1 => (1 : ℚ)) i := by
  have hpos : ∀ i : Fin 1, (0 : ℚ) < (fun _ : Fin 1 => (1 : ℚ)) i := fun i => by norm_num
  have hne : ∀ i : Fin 1,
      (∑ j, (fun _ _ : Fin 1 => (1 : ℚ)) i j * (fun _ : Fin 1 => (1 : ℚ)) j) ≠ 0 := by
    intro i
    simp [Fin.sum_univ_one]
  exact ⟨⟨hpos, hne⟩, claim_C5_update_refinement _ _ _ hpos hne⟩

/-! ## Claim C4 -/

theorem epsStep_cpt {n m : Nat} (a b : List ℝ) (M : Fin n → Fin m → ℝ)
    (reg epsilon0 : ℝ) (nii nax : Nat) (stopThr : ℝ) (pp : Nat) (s : EpsSt n m) :
    (epsStep a b M reg epsilon0 nii nax stopThr pp s).cpt = s.cpt + 1 := rfl

theorem epsLoop_flag_false {n m : Nat} (a b : List ℝ) (M : Fin n → Fin m → ℝ)
    (reg epsilon0 : ℝ) (nii nax : Nat) (stopThr : ℝ) (pp : Nat) (s : EpsSt n m)
    (h : s.loopFlag = false) :
    ∀ fuel, epsLoop a b M reg epsilon0 nii nax stopThr pp fuel s = s
  | 0 => rfl
  | fuel + 1 => by simp [epsLoop, h]

theorem epsStep_flag_true {n m : Nat} (a b : List ℝ) (M : Fin n → Fin m → ℝ)
    (reg epsilon0 : ℝ) (nii nax : Nat) (stopThr : ℝ) (pp : Nat) (s : EpsSt n m)
    (h : (epsStep a b M reg epsilon0 nii nax stopThr pp s).loopFlag = true) :
    s.cpt < nax := by
  by_contra hc
  have hle : nax ≤ s.cpt := Nat.le_of_not_lt hc
  simp [epsStep, hle] at h

theorem epsStep_flag_exit {n m : Nat} (a b : List ℝ) (M : Fin n → Fin m → ℝ)
    (reg epsilon0 : ℝ) (nii nax : Nat) (stopThr : ℝ) (pp : Nat) (s : EpsSt n m)
    (hs : s.loopFlag = true)
    (h : (epsStep a b M reg epsilon0 nii nax stopThr pp s).loopFlag = false) :
    numItermin < s.cpt ∨ nax ≤ s.cpt := by
  by_cases h1 : nax ≤ s.cpt
  · exact Or.inr h1
  by_cases h2 : numItermin < s.cpt
  · exact Or.inl h2
  exfalso
  simp [epsStep, h1, hs, h2] at h

theorem epsLoop_min_iter {n m : Nat} (a b : List ℝ) (M : Fin n → Fin m → ℝ)
    (reg epsilon0 : ℝ) (nii nax : Nat) (stopThr : ℝ) (pp : Nat) :
    ∀ (fuel : Nat) (s : EpsSt n m), nax + 2 ≤ fuel + s.cpt → s.loopFlag = true →
      s.cpt ≤ nax →
      numItermin < (epsLoop a b M reg epsilon0 nii nax stopThr pp fuel s).cpt ∨
        nax < (epsLoop a b M reg epsilon0 nii nax stopThr pp fuel s).cpt
  | 0, s, hf, _, hc => by omega
  | fuel + 1, s, hf, hflag, hc => by
    have hstep : epsLoop a b M reg epsilon0 nii nax stopThr pp (fuel + 1) s =
        epsLoop a b M reg epsilon0 nii nax stopThr pp fuel
          (epsStep a b M reg epsilon0 nii nax stopThr pp s) := by
      simp [epsLoop, hflag]
    rw [hstep]
    by_cases hf' : (epsStep a b M reg epsilon0 nii nax stopThr pp s).loopFlag = true
    · have hlt : s.cpt < nax := epsStep_flag_true a b M reg epsilon0 nii nax stopThr pp s hf'
      exact epsLoop_min_iter a b M reg epsilon0 nii nax stopThr pp fuel _
        (by rw [epsStep_cpt]; omega) hf' (by rw [epsStep_cpt]; omega)
    · rw [epsLoop_flag_false a b M reg epsilon0 nii nax stopThr pp _
        (Bool.eq_false_iff.mpr hf') fuel]
      rcases epsStep_flag_exit a b M reg epsilon0 nii nax stopThr pp s hflag
          (Bool.eq_false_iff.mpr hf') with h | h
      · left; rw [epsStep_cpt]; omega
      · right; rw [epsStep_cpt]; omega

/-- C4: on every input the epsilon-scaling solver performs at least
numItermin = 35 outer iterations (the final cpt counts the executed outer
iterations, i.e. the inner stabilized solves), even when the outer error test
would pass immediately and even when the caller's numItermax is below 35
(line 434 lifts it to at least numItermin). -/
theorem claim_C4_min_outer_iterations {n m : Nat} (a b : List ℝ) (M : Fin n → Fin m → ℝ)
    (reg : ℝ) (numItermax : Nat) (epsilon0 : ℝ) (numInnerItermax : Nat) (tau stopThr : ℝ)
    (warmstart : Option ((Fin n → Flt ℝ) × (Fin m → Flt ℝ))) :
    numItermin ≤
      (epsFinalState a b M reg numItermax epsilon0 numInnerItermax tau stopThr
        warmstart).cpt := by
  simp only [epsFinalState]
  have h := epsLoop_min_iter (margList a n) (margList b m) M reg epsilon0 numInnerItermax
    (epsNumItermax numItermax) stopThr 10 (epsNumItermax numItermax + 2)
    { alpha := match warmstart with
        | none => fun _ => Flt.num 0
        | some w => w.1
      beta := match warmstart with
        | none => fun _ => Flt.num 0
        | some w => w.2
      G := fun _ _ => Flt.num 0
      err := Flt.num 1, cpt := 0, loopFlag := true, errLog := [] }
    (by simp) rfl (Nat.zero_le _)
  have hmin : numItermin ≤ epsNumItermax numItermax := le_max_left _ _
  rcases h with h | h <;> omega

/-! ## Claim C7 -/

/-- C7: when logging is requested the stabilized solver returns the
consolidated potentials alpha + reg*log(u) and beta + reg*log(v) of its final
state (folding the residual u, v into the log-potentials), and each outer step
of the epsilon-scaling solver stores exactly the consolidated potentials of
its inner call as the state passed to the next inner call, whose warmstart is
exactly the pair (alpha, beta) of the current state. -/
theorem claim_C7_warmstart_potentials {n m : Nat} (a b : List ℝ) (M : Fin n → Fin m → ℝ)
    (reg : ℝ) (numItermax : Nat) (tau stopThr : ℝ)
    (warmstart : Option ((Fin n → Flt ℝ) × (Fin m → Flt ℝ))) (printPeriod : Nat)
    (epsilon0 : ℝ) (numInnerItermax nax pp : Nat) (stopThrE : ℝ) :
    ((sinkhornStabilized a b M reg numItermax tau stopThr warmstart printPeriod).alphaOut =
        fun i =>
          fltAdd
            ((stabFinalState a b M reg numItermax tau stopThr warmstart printPeriod).alpha i)
            (fltMul (Flt.num reg)
              (fltLogR
                ((stabFinalState a b M reg numItermax tau stopThr warmstart
                  printPeriod).u i)))) ∧
      ((sinkhornStabilized a b M reg numItermax tau stopThr warmstart printPeriod).betaOut =
        fun j =>
          fltAdd
            ((stabFinalState a b M reg numItermax tau stopThr warmstart printPeriod).beta j)
            (fltMul (Flt.num reg)
              (fltLogR
                ((stabFinalState a b M reg numItermax tau stopThr warmstart
                  printPeriod).v j)))) ∧
      ∀ s : EpsSt n m,
        (epsStep a b M reg epsilon0 numInnerItermax nax stopThrE pp s).alpha =
            (epsInner a b M reg epsilon0 numInnerItermax s).alphaOut ∧
          (epsStep a b M reg epsilon0 numInnerItermax nax stopThrE pp s).beta =
            (epsInner a b M reg epsilon0 numInnerItermax s).betaOut ∧
          epsInner a b M reg epsilon0 numInnerItermax s =
            sinkhornStabilized a b M (epsGetReg reg epsilon0 s.cpt) numInnerItermax
              ((10 : ℝ) ^ (3 : Nat)) (1 / (10 : ℝ) ^ (9 : Nat)) (some (s.alpha, s.beta)) 20 :=
  ⟨rfl, rfl, fun s => ⟨rfl, rfl, rfl⟩⟩

/-! ## Claim C8 -/

theorem margList_empty_eq (k : Nat) :
    margList ([] : List ℝ) k = margList (List.replicate k ((1 : ℝ) / (k : ℝ))) k := by
  cases k with
  | zero => simp [margList]
  | succ k => simp [margList]

theorem margVec_empty_eq (k : Nat) :
    margVec ([] : List ℝ) k = margVec (List.replicate k ((1 : ℝ) / (k : ℝ))) k := by
  unfold margVec
  rw [margList_empty_eq]

theorem margVec_empty_uniform (k : Nat) :
    margVec ([] : List ℝ) k = fun _ => (1 : ℝ) / (k : ℝ) := by
  funext i
  unfold margVec margList
  simp only [List.length_nil, if_pos rfl]
  rw [List.getD_eq_getElem?_getD]
  simp [List.getElem?_replicate, i.2]

/-- C8: in each of the three Sinkhorn solvers an empty marginal list is
replaced by the uniform distribution sized to the corresponding axis of M
before iterating: the read marginal vector is constantly 1/n, and running any
of the solvers on an empty marginal gives exactly the run on the explicit
uniform distribution. -/
theorem claim_C8_empty_marginal_defaults {n m : Nat} (a b : List ℝ) (M : Fin n → Fin m → ℝ)
    (reg : ℝ) (itmax : Nat) (thr : ℝ) (itmax2 : Nat) (tau thr2 : ℝ)
    (warm : Option ((Fin n → Flt ℝ) × (Fin m → Flt ℝ))) (pp : Nat) (epsilon0 : ℝ)
    (nii : Nat) (tauE thrE : ℝ) :
    (margVec ([] : List ℝ) n = fun _ => (1 : ℝ) / (n : ℝ)) ∧
      (sinkhornPlan [] b M reg itmax thr =
        sinkhornPlan (List.replicate n ((1 : ℝ) / (n : ℝ))) b M reg itmax thr) ∧
      (sinkhornPlan a [] M reg itmax thr =
        sinkhornPlan a (List.replicate m ((1 : ℝ) / (m : ℝ))) M reg itmax thr) ∧
      (sinkhornStabilized [] b M reg itmax2 tau thr2 warm pp =
        sinkhornStabilized (List.replicate n ((1 : ℝ) / (n : ℝ))) b M reg itmax2 tau thr2
          warm pp) ∧
      (sinkhornStabilized a [] M reg itmax2 tau thr2 warm pp =
        sinkhornStabilized a (List.replicate m ((1 : ℝ) / (m : ℝ))) M reg itmax2 tau thr2
          warm pp) ∧
      (epsFinalState [] b M reg itmax epsilon0 nii tauE thrE warm =
        epsFinalState (List.replicate n ((1 : ℝ) / (n : ℝ))) b M reg itmax epsilon0 nii
          tauE thrE warm) ∧
      (epsFinalState a [] M reg itmax epsilon0 nii tauE thrE warm =
        epsFinalState a (List.replicate m ((1 : ℝ) / (m : ℝ))) M reg itmax epsilon0 nii
          tauE thrE warm) := by
  refine ⟨margVec_empty_uniform n, ?_, ?_, ?_, ?_, ?_, ?_⟩
  · simp only [sinkhornPlan, sinkhornFinalState, margVec_empty_eq]
  · simp only [sinkhornPlan, sinkhornFinalState, margVec_empty_eq]
  · simp only [sinkhornStabilized, stabFinalState, margVec_empty_eq]
  · simp only [sinkhornStabilized, stabFinalState, margVec_empty_eq]
  · simp only [epsFinalState, margList_empty_eq]
  · simp only [epsFinalState, margList_empty_eq]

/-! ## Claim C9 -/

theorem baryLoop_exit_cond {d nA : Nat} (A : Fin d → Fin nA → ℝ) (K : Fin d → Fin d → ℝ)
    (weights : Fin nA → ℝ) (stopThr : ℝ) (numItermax : Nat) :
    ∀ (fuel : Nat) (s : BarySt d nA), numItermax < s.cpt + fuel →
      ¬ baryWhileCond stopThr numItermax (baryLoop A K weights stopThr numItermax fuel s)
  | 0, s, hf => by
    rw [show baryLoop A K weights stopThr numItermax 0 s = s from rfl]
    intro hc
    exact absurd hc.2 (by omega)
  | fuel + 1, s, hf => by
    by_cases hc : baryWhileCond stopThr numItermax s
    · rw [show baryLoop A K weights stopThr numItermax (fuel + 1) s =
          baryLoop A K weights stopThr numItermax fuel (baryStep A K weights s) from by
        simp [baryLoop, hc]]
      exact baryLoop_exit_cond A K weights stopThr numItermax fuel (baryStep A K weights s)
        (by
          have hcpt : (baryStep A K weights s).cpt = s.cpt + 1 := rfl
          omega)
    · rw [show baryLoop A K weights stopThr numItermax (fuel + 1) s = s from by
        simp [baryLoop, hc]]
      exact hc

/-- C9: in the barycenter solver the error is recomputed exactly at the
iterations whose counter is congruent to 1 modulo 10 — where it equals the sum
over rows of the per-row standard deviation of the updated UKv across its
columns — and is left unchanged otherwise; each iteration increments the
counter; the while condition is exactly err > stopThr and cpt < numItermax,
and the returned state satisfies err <= stopThr or cpt >= numItermax. -/
theorem claim_C9_barycenter_error_schedule {d nA : Nat} (A : Fin d → Fin nA → ℝ)
    (M : Fin d → Fin d → ℝ) (reg : ℝ) (weightsOpt : Option (Fin nA → ℝ))
    (numItermax : Nat) (stopThr : ℝ) :
    ((baryFinalState A M reg weightsOpt numItermax stopThr).err ≤ stopThr ∨
        numItermax ≤ (baryFinalState A M reg weightsOpt numItermax stopThr).cpt) ∧
      (∀ (K : Fin d → Fin d → ℝ) (weights : Fin nA → ℝ) (s : BarySt d nA),
        (baryStep A K weights s).err =
          if (s.cpt + 1) % 10 = 1 then baryErrOf (baryUKvUpdate A K s.u) else s.err) ∧
      (∀ (K : Fin d → Fin d → ℝ) (weights : Fin nA → ℝ) (s : BarySt d nA),
        (baryStep A K weights s).cpt = s.cpt + 1) ∧
      ∀ s : BarySt d nA,
        baryWhileCond stopThr numItermax s ↔ stopThr < s.err ∧ s.cpt < numItermax := by
  refine ⟨?_, ?_, fun K w s => rfl, fun s => Iff.rfl⟩
  · simp only [baryFinalState]
    have h := baryLoop_exit_cond A (fun i j => Real.exp (-M i j / reg))
      (match weightsOpt with
        | none => fun _ => 1 / (nA : ℝ)
        | some w => w) stopThr numItermax (numItermax + 1)
      (baryInitSt A (fun i j => Real.exp (-M i j / reg)))
      (by exact (by omega : numItermax < 0 + (numItermax + 1)))
    unfold baryWhileCond at h
    rcases not_and_or.mp h with h | h
    · exact Or.inl (not_lt.mp h)
    · exact Or.inr (not_lt.mp h)
  · intro K w s
    simp only [baryStep]
    by_cases hc : (s.cpt + 1) % 10 = 1
    · simp [hc]
    · simp [hc]

/-! ## Claim C2 -/

theorem sinkhornLoop_enter {n m : Nat} (b : Fin m → Flt F) (K Kp : Fin n → Fin m → Flt F)
    (stopThr : F) (numItermax fuel : Nat) (s : SinkSt F n m)
    (hw : sinkhornWhileCond stopThr numItermax s = true)
    (hg : sinkhornGuard K s = false) :
    sinkhornLoop b K Kp stopThr numItermax (fuel + 1) s =
      sinkhornLoop b K Kp stopThr numItermax fuel (sinkhornBody b K Kp s) := by
  simp [sinkhornLoop, hw, hg]

theorem sinkhornLoop_exit {n m : Nat} (b : Fin m → Flt F) (K Kp : Fin n → Fin m → Flt F)
    (stopThr : F) (numItermax : Nat) (s : SinkSt F n m)
    (hw : sinkhornWhileCond stopThr numItermax s = false) :
    ∀ fuel, sinkhornLoop b K Kp stopThr numItermax fuel s = s
  | 0 => rfl
  | fuel + 1 => by simp [sinkhornLoop, hw]

/-- C2 (amended): when, at the start of a loop iteration (i.e. with the
tracked error above stopThr and cpt below numItermax), the guard observes a
zero entry of K.T u or a NaN in u or v, the loop exits immediately (for any
remaining fuel) through the rollback: u and v are restored to the previous
iterate when at least one iteration has completed and are kept unchanged on
the very first iteration, exactly one console warning is printed, no exception
is raised (a state is returned), and the returned plan diag(u) K diag(v) is
built from these reverted values. -/
theorem claim_C2_guard_rollback {n m : Nat} (b : Fin m → Flt F)
    (K Kp : Fin n → Fin m → Flt F) (stopThr : F) (numItermax fuel : Nat)
    (s : SinkSt F n m) (hw : sinkhornWhileCond stopThr numItermax s = true)
    (hg : sinkhornGuard K s = true) :
    sinkhornLoop b K Kp stopThr numItermax (fuel + 1) s = sinkhornRollback s ∧
      (sinkhornRollback s).u = (if s.cpt ≠ 0 then s.uprev else s.u) ∧
      (sinkhornRollback s).v = (if s.cpt ≠ 0 then s.vprev else s.v) ∧
      (sinkhornRollback s).warn = s.warn + 1 ∧
      sinkhornPlanOf K (sinkhornLoop b K Kp stopThr numItermax (fuel + 1) s).u
          (sinkhornLoop b K Kp stopThr numItermax (fuel + 1) s).v =
        sinkhornPlanOf K (if s.cpt ≠ 0 then s.uprev else s.u)
          (if s.cpt ≠ 0 then s.vprev else s.v) := by
  have h : sinkhornLoop b K Kp stopThr numItermax (fuel + 1) s = sinkhornRollback s := by
    simp [sinkhornLoop, hw, hg]
  exact ⟨h, rfl, rfl, rfl, by rw [h]; rfl⟩

/-- C2 amended, witness: a concrete rational 1x1 state with NaN in u, tracked
error 1 > stopThr = 0 and cpt = 1 < 5 is rolled back with one warning. -/
theorem claim_C2_guard_rollback_witness :
    sinkhornWhileCond (0 : ℚ) 5 c2wSt = true ∧ sinkhornGuard c2wK c2wSt = true ∧
      (sinkhornLoop c2wB c2wK c2wK (0 : ℚ) 5 (3 + 1) c2wSt).u 0 = Flt.num 2 ∧
      (sinkhornLoop c2wB c2wK c2wK (0 : ℚ) 5 (3 + 1) c2wSt).v 0 = Flt.num 3 ∧
      (sinkhornLoop c2wB c2wK c2wK (0 : ℚ) 5 (3 + 1) c2wSt).warn = 1 := by
  have h := claim_C2_guard_rollback c2wB c2wK c2wK (0 : ℚ) 5 3 c2wSt (by decide) (by decide)
  refine ⟨by decide, by decide, ?_, ?_, ?_⟩
  · rw [h.1]; decide
  · rw [h.1]; decide
  · rw [h.1]; decide

/-! ## The degenerate run shared by the C2 and C6 counterexamples

On a = b = [0, 1] (nonnegative, summing to one), M = 0 (symmetric,
nonnegative) and reg = 1 the kernel is all ones, Kp = diag(1/a) K has an
infinite first row (1/0), and the very first iteration produces
u = [NaN, 1]: the error is recomputed in this same iteration (cpt = 0), so it
becomes NaN, the while condition err > stopThr is then false, and the loop
exits silently — no guard, no rollback, no warning — returning a plan with a
NaN entry. -/

theorem cex_margVec : margVec cexList 2 = ![0, 1] := by
  funext i
  fin_cases i <;> simp [margVec, margList, cexList]

theorem cex_B : cexB = ![Flt.num 0, Flt.num 1] := by
  funext i
  fin_cases i <;> simp [cexB, numVec, cex_margVec]

theorem cex_K : cexK = fun _ _ => Flt.num 1 := by
  funext i j
  simp [cexK, expKR, numMat, cexM2, Real.exp_zero]

theorem cex_Kp0 (j : Fin 2) : cexKp 0 j = Flt.inf := by
  rw [show cexKp = mkKp (margVec cexList 2) cexK from rfl, cex_margVec, cex_K]
  unfold mkKp matMulF diagMatF
  simp [List.ofFn_succ, vsum_cons, vsum_nil, fltDiv, fltMul, fltAdd,
    Matrix.cons_val_zero, Matrix.cons_val_one, Matrix.head_cons]

theorem cex_Kp1 (j : Fin 2) : cexKp 1 j = Flt.num 1 := by
  rw [show cexKp = mkKp (margVec cexList 2) cexK from rfl, cex_margVec, cex_K]
  unfold mkKp matMulF diagMatF
  simp [List.ofFn_succ, vsum_cons, vsum_nil, fltDiv, fltMul, fltAdd]

theorem fltSub_nan_left (x : Flt F) : fltSub Flt.nan x = Flt.nan := by cases x <;> rfl

theorem cex_while0 :
    sinkhornWhileCond (1 / (10 : ℝ) ^ (9 : Nat)) 1000 (sinkhornInitSt ℝ 2 2) = true := by
  simp only [sinkhornWhileCond, sinkhornInitSt, fltLtb, Bool.and_eq_true, decide_eq_true_eq]
  constructor
  · norm_num
  · norm_num

theorem cex_guard0 : sinkhornGuard cexK (sinkhornInitSt ℝ 2 2) = false := by
  rw [show sinkhornGuard cexK (sinkhornInitSt ℝ 2 2) =
      (anyZeroV (matTvecF cexK (sinkhornInitSt ℝ 2 2).u) ||
        anyNanV (sinkhornInitSt ℝ 2 2).u || anyNanV (sinkhornInitSt ℝ 2 2).v) from rfl,
    cex_K]
  simp [anyZeroV, anyNanV, matTvecF, sinkhornInitSt, List.ofFn_succ, vsum_cons, vsum_nil,
    fltMul, fltAdd, fltEqZerob, fltIsNanb]

theorem cex_v : cexBody.v = ![Flt.num 0, Flt.num 1] := by
  funext i
  rw [show cexBody.v = vecDivF cexB (matTvecF cexK (sinkhornInitSt ℝ 2 2).u) from rfl,
    cex_B, cex_K]
  fin_cases i <;>
    simp [vecDivF, matTvecF, sinkhornInitSt, List.ofFn_succ, vsum_cons, vsum_nil, fltMul,
      fltAdd, fltDiv] <;>
    norm_num

theorem cex_u0 : cexBody.u 0 = Flt.nan := by
  rw [show cexBody.u 0 = fltDiv (Flt.num 1) (matVecF cexKp cexBody.v 0) from rfl, cex_v]
  rw [show matVecF cexKp ![Flt.num 0, Flt.num 1] 0 =
      vsum (List.ofFn fun j => fltMul (cexKp 0 j) (![Flt.num 0, Flt.num 1] j)) from rfl]
  simp only [List.ofFn_succ, List.ofFn_zero, vsum_cons, vsum_nil, cex_Kp0]
  simp [fltMul, fltAdd, fltDiv]

theorem cex_u1 : cexBody.u 1 = Flt.num 1 := by
  rw [show cexBody.u 1 = fltDiv (Flt.num 1) (matVecF cexKp cexBody.v 1) from rfl, cex_v]
  rw [show matVecF cexKp ![Flt.num 0, Flt.num 1] 1 =
      vsum (List.ofFn fun j => fltMul (cexKp 1 j) (![Flt.num 0, Flt.num 1] j)) from rfl]
  simp only [List.ofFn_succ, List.ofFn_zero, vsum_cons, vsum_nil, cex_Kp1]
  simp [fltMul, fltAdd, fltDiv]

theorem cex_inner (t j : Fin 2) :
    matMulF cexK (diagMatF cexBody.v) t j = cexBody.v j := by
  rw [cex_K, cex_v]
  fin_cases j <;>
    simp [matMulF, diagMatF, List.ofFn_succ, vsum_cons, vsum_nil, fltMul, fltAdd] <;>
    norm_num

theorem cex_plan0 (j : Fin 2) : sinkhornPlanOf cexK cexBody.u cexBody.v 0 j = Flt.nan := by
  rw [show sinkhornPlanOf cexK cexBody.u cexBody.v 0 j =
      vsum (List.ofFn fun t =>
        fltMul (diagMatF cexBody.u 0 t) (matMulF cexK (diagMatF cexBody.v) t j)) from rfl]
  simp only [List.ofFn_succ, List.ofFn_zero, vsum_cons, vsum_nil, cex_inner, diagMatF]
  fin_cases j <;>
    simp [cex_u0, cex_v, fltMul_nan_left, fltMul, fltAdd, fltAdd_nan_left]

theorem cex_err : cexBody.err = Flt.nan := by
  rw [show cexBody.err = sinkhornErr cexB cexK cexBody.u cexBody.v from rfl]
  unfold sinkhornErr sqnormV vecSubF colSumsF
  simp only [List.ofFn_succ, List.ofFn_zero, vsum_cons, vsum_nil, cex_plan0,
    fltAdd_nan_left, fltSub_nan_left, fltMul_nan_left]

theorem cex_while1 : sinkhornWhileCond (1 / (10 : ℝ) ^ (9 : Nat)) 1000 cexBody = false := by
  simp [sinkhornWhileCond, cex_err, fltLtb_nan_right]

theorem cex_final_eq :
    sinkhornFinalState cexList cexList cexM2 1 1000 (1 / (10 : ℝ) ^ (9 : Nat)) = cexBody := by
  show sinkhornLoop cexB cexK cexKp (1 / (10 : ℝ) ^ (9 : Nat)) 1000 (1000 + 1)
      (sinkhornInitSt ℝ 2 2) = cexBody
  rw [sinkhornLoop_enter cexB cexK cexKp (1 / (10 : ℝ) ^ (9 : Nat)) 1000 1000
      (sinkhornInitSt ℝ 2 2) cex_while0 cex_guard0]
  exact sinkhornLoop_exit cexB cexK cexKp (1 / (10 : ℝ) ^ (9 : Nat)) 1000 cexBody
    cex_while1 1000

/-- C2 counterexample: on a = b = [0, 1], M = 0, reg = 1 the first iteration
puts a NaN into u, yet the solver's final state still holds that NaN (u was
not rolled back to the previous iterate uprev = 1/2) and no console warning
was ever printed (warn = 0): the NaN poisoned the tracked error in the same
iteration, so the loop exited at the while condition before the guard could
fire, contradicting the claim that a NaN in u always triggers an immediate
rollback with a warning. -/
theorem claim_C2_counterexample :
    anyNanV (sinkhornFinalState cexList cexList cexM2 1 1000
        (1 / (10 : ℝ) ^ (9 : Nat))).u = true ∧
      (sinkhornFinalState cexList cexList cexM2 1 1000
        (1 / (10 : ℝ) ^ (9 : Nat))).u 0 = Flt.nan ∧
      (sinkhornFinalState cexList cexList cexM2 1 1000
        (1 / (10 : ℝ) ^ (9 : Nat))).uprev 0 = Flt.num (1 / 2) ∧
      (sinkhornFinalState cexList cexList cexM2 1 1000
        (1 / (10 : ℝ) ^ (9 : Nat))).warn = 0 := by
  rw [cex_final_eq]
  refine ⟨?_, cex_u0, ?_, rfl⟩
  · simp [anyNanV, List.ofFn_succ, cex_u0, fltIsNanb]
  · rfl

/-- C6 counterexample: on the nonnegative marginals a = b = [0, 1] (summing
to one) and the symmetric nonnegative cost M = 0 with reg = 1, the plan
returned by the plain Sinkhorn solver has a NaN entry at (0,0), which is not
nonnegative — the claim fails for marginals with zero entries. -/
theorem claim_C6_counterexample :
    fltLeb (Flt.num 0)
      (sinkhornPlan cexList cexList cexM2 1 1000 (1 / (10 : ℝ) ^ (9 : Nat)) 0 0) = false := by
  show fltLeb (Flt.num 0)
      (sinkhornPlanOf cexK
        (sinkhornFinalState cexList cexList cexM2 1 1000 (1 / (10 : ℝ) ^ (9 : Nat))).u
        (sinkhornFinalState cexList cexList cexM2 1 1000 (1 / (10 : ℝ) ^ (9 : Nat))).v
        0 0) = false
  rw [cex_final_eq, cex_plan0]
  rfl

/-! ## Claim C6 (amended): positivity invariants -/

theorem margVec_pos {k : Nat} (a : List ℝ) (hlen : a.length = k) (hk : 0 < k)
    (hpos : ∀ x ∈ a, (0 : ℝ) < x) : ∀ i : Fin k, 0 < margVec a k i := by
  intro i
  unfold margVec margList
  have hne : a.length ≠ 0 := by omega
  rw [if_neg hne]
  have hi : (i : Nat) < a.length := by rw [hlen]; exact i.2
  rw [List.getD_eq_getElem?_getD, List.getElem?_eq_getElem hi]
  exact hpos _ (List.getElem_mem hi)

theorem matTvecF_isPosN {n m : Nat} (K : Fin n → Fin m → Flt F) (u : Fin n → Flt F)
    (hn : 0 < n) (hK : ∀ i j, isPosN (K i j)) (hu : ∀ i, isPosN (u i)) (j : Fin m) :
    isPosN (matTvecF K u j) := by
  unfold matTvecF
  apply vsum_isPosN
  · intro hnil
    have := congrArg List.length hnil
    simp at this
    omega
  · intro x hx
    rw [List.mem_ofFn] at hx
    obtain ⟨i, rfl⟩ := hx
    exact isPosN_mul (hK i j) (hu i)

theorem matVecF_isPosN {n m : Nat} (K : Fin n → Fin m → Flt F) (v : Fin m → Flt F)
    (hm : 0 < m) (hK : ∀ i j, isPosN (K i j)) (hv : ∀ j, isPosN (v j)) (i : Fin n) :
    isPosN (matVecF K v i) := by
  unfold matVecF
  apply vsum_isPosN
  · intro hnil
    have := congrArg List.length hnil
    simp at this
    omega
  · intro x hx
    rw [List.mem_ofFn] at hx
    obtain ⟨j, rfl⟩ := hx
    exact isPosN_mul (hK i j) (hv j)

theorem sinkhornBody_posInv {n m : Nat} (b : Fin m → Flt F) (K Kp : Fin n → Fin m → Flt F)
    (hn : 0 < n) (hm : 0 < m) (hb : ∀ j, isPosN (b j)) (hK : ∀ i j, isPosN (K i j))
    (hKp : ∀ i j, isPosN (Kp i j)) (s : SinkSt F n m) (hs : sinkPosInv s) :
    sinkPosInv (sinkhornBody b K Kp s) := by
  obtain ⟨hu, hv, _⟩ := hs
  have hv1 : ∀ j, isPosN (vecDivF b (matTvecF K s.u) j) := fun j =>
    isPosN_div (hb j) (matTvecF_isPosN K s.u hn hK hu j)
  have hu1 : ∀ i, isPosN (vecDivF (fun _ => Flt.num 1)
      (matVecF Kp (vecDivF b (matTvecF K s.u))) i) := fun i =>
    isPosN_div (isPosN_num one_pos) (matVecF_isPosN Kp _ hm hKp hv1 i)
  exact ⟨hu1, hv1, Or.inr ⟨hu, hv⟩⟩

theorem sinkhornRollback_posInv {n m : Nat} (s : SinkSt F n m) (hs : sinkPosInv s) :
    sinkPosInv (sinkhornRollback s) := by
  obtain ⟨hu, hv, hprev⟩ := hs
  by_cases hc : s.cpt = 0
  · refine ⟨?_, ?_, ?_⟩ <;> simp only [sinkhornRollback, hc, ne_eq, not_true_eq_false,
      if_false, ite_false]
    · exact hu
    · exact hv
    · exact Or.inl trivial
  · rcases hprev with h0 | ⟨hup, hvp⟩
    · exact absurd h0 hc
    · refine ⟨?_, ?_, Or.inr ⟨hup, hvp⟩⟩ <;>
        simp only [sinkhornRollback, ne_eq, hc, not_false_eq_true, if_true, ite_true]
      · exact hup
      · exact hvp

theorem sinkhornLoop_posInv {n m : Nat} (b : Fin m → Flt F) (K Kp : Fin n → Fin m → Flt F)
    (stopThr : F) (numItermax : Nat) (hn : 0 < n) (hm : 0 < m)
    (hb : ∀ j, isPosN (b j)) (hK : ∀ i j, isPosN (K i j)) (hKp : ∀ i j, isPosN (Kp i j)) :
    ∀ (fuel : Nat) (s : SinkSt F n m), sinkPosInv s →
      sinkPosInv (sinkhornLoop b K Kp stopThr numItermax fuel s)
  | 0, s, hs => hs
  | fuel + 1, s, hs => by
    by_cases hw : sinkhornWhileCond stopThr numItermax s = true
    · by_cases hg : sinkhornGuard K s = true
      · rw [show sinkhornLoop b K Kp stopThr numItermax (fuel + 1) s = sinkhornRollback s
            from by simp [sinkhornLoop, hw, hg]]
        exact sinkhornRollback_posInv s hs
      · rw [sinkhornLoop_enter b K Kp stopThr numItermax fuel s hw
          (Bool.eq_false_iff.mpr hg)]
        exact sinkhornLoop_posInv b K Kp stopThr numItermax hn hm hb hK hKp fuel _
          (sinkhornBody_posInv b K Kp hn hm hb hK hKp s hs)
    · rw [sinkhornLoop_exit b K Kp stopThr numItermax s (Bool.eq_false_iff.mpr hw)]
      exact hs

theorem sinkhornPlanOf_nneg {n m : Nat} (K : Fin n → Fin m → Flt F)
    (u : Fin n → Flt F) (v : Fin m → Flt F) (hK : ∀ i j, isPosN (K i j))
    (hu : ∀ i, isPosN (u i)) (hv : ∀ j, isPosN (v j)) (i : Fin n) (j : Fin m) :
    fltLeb (Flt.num 0) (sinkhornPlanOf K u v i j) = true := by
  have hinner : ∀ (t : Fin n) (j : Fin m), isNNegN (matMulF K (diagMatF v) t j) := by
    intro t j
    unfold matMulF
    apply vsum_isNNegN
    intro x hx
    rw [List.mem_ofFn] at hx
    obtain ⟨l, rfl⟩ := hx
    refine isNNegN_mul (hK t l).toNNeg ?_
    unfold diagMatF
    by_cases hjl : j = l
    · rw [if_pos hjl]; exact (hv l).toNNeg
    · rw [if_neg hjl]; exact isNNegN_num le_rfl
  have houter : isNNegN (sinkhornPlanOf K u v i j) := by
    rw [show sinkhornPlanOf K u v i j = vsum (List.ofFn fun t =>
        fltMul (diagMatF u i t) (matMulF K (diagMatF v) t j)) from rfl]
    apply vsum_isNNegN
    intro x hx
    rw [List.mem_ofFn] at hx
    obtain ⟨t, rfl⟩ := hx
    refine isNNegN_mul ?_ (hinner t j)
    unfold diagMatF
    by_cases hti : t = i
    · rw [if_pos hti]; exact (hu i).toNNeg
    · rw [if_neg hti]; exact isNNegN_num le_rfl
  obtain ⟨x, hx, hxn⟩ := houter
  rw [hx, fltLeb_num_num]
  exact decide_eq_true hxn

theorem fltLogR_pos {t : Flt ℝ} (h : isPosN t) : ∃ y, fltLogR t = Flt.num y := by
  obtain ⟨x, rfl, hx⟩ := h
  refine ⟨Real.log x, ?_⟩
  simp [fltLogR, ne_of_gt hx, hx]

theorem consolidated_isNumN {al u : Flt ℝ} (reg : ℝ) (hal : isNumN al) (hu : isPosN u) :
    isNumN (fltAdd al (fltMul (Flt.num reg) (fltLogR u))) := by
  obtain ⟨x, rfl⟩ := hal
  obtain ⟨y, hy⟩ := fltLogR_pos hu
  rw [hy, fltMul_num_num, fltAdd_num_num]
  exact ⟨_, rfl⟩

theorem stabGetK_posN {n m : Nat} (M : Fin n → Fin m → ℝ) (reg : ℝ) (hreg : reg ≠ 0)
    (al : Fin n → Flt ℝ) (be : Fin m → Flt ℝ) (hal : ∀ i, isNumN (al i))
    (hbe : ∀ j, isNumN (be j)) : ∀ i j, isPosN (stabGetK M reg al be i j) := by
  intro i j
  obtain ⟨x, hx⟩ := hal i
  obtain ⟨y, hy⟩ := hbe j
  unfold stabGetK
  rw [hx, hy, fltSub_num_num, fltSub_num_num, fltNeg_num, fltDiv_num_num _ hreg]
  exact ⟨_, rfl, Real.exp_pos _⟩

theorem fltLeb_zero_exp (z : ℝ) : fltLeb (Flt.num 0) (fltExpR (Flt.num z)) = true := by
  rw [show fltExpR (Flt.num z) = Flt.num (Real.exp z) from rfl, fltLeb_num_num]
  exact decide_eq_true (Real.exp_pos z).le

theorem stabGetGamma_nneg {n m : Nat} (M : Fin n → Fin m → ℝ) (reg : ℝ) (hreg : reg ≠ 0)
    (al : Fin n → Flt ℝ) (be : Fin m → Flt ℝ) (u : Fin n → Flt ℝ) (v : Fin m → Flt ℝ)
    (hal : ∀ i, isNumN (al i)) (hbe : ∀ j, isNumN (be j)) (hu : ∀ i, isPosN (u i))
    (hv : ∀ j, isPosN (v j)) (i : Fin n) (j : Fin m) :
    fltLeb (Flt.num 0) (stabGetGamma M reg al be u v i j) = true := by
  obtain ⟨x, hx⟩ := hal i
  obtain ⟨y, hy⟩ := hbe j
  obtain ⟨p, hp⟩ := fltLogR_pos (hu i)
  obtain ⟨q, hq⟩ := fltLogR_pos (hv j)
  unfold stabGetGamma
  rw [hx, hy, hp, hq, fltSub_num_num, fltSub_num_num, fltNeg_num, fltDiv_num_num _ hreg,
    fltAdd_num_num, fltAdd_num_num]
  exact fltLeb_zero_exp _

theorem stabAbsorb_posInv {n m : Nat} (M : Fin n → Fin m → ℝ) (reg tau : ℝ)
    (hn : 0 < n) (hm : 0 < m) (hreg : reg ≠ 0) (s : StabSt n m) (hs : stabPosInv s) :
    stabPosInv (stabAbsorb M reg tau s) := by
  obtain ⟨hal, hbe, hK, hu, hv⟩ := hs
  unfold stabAbsorb
  split
  · have hal1 : ∀ i, isNumN (fltAdd (s.alpha i) (fltMul (Flt.num reg) (fltLogR (s.u i)))) :=
      fun i => consolidated_isNumN reg (hal i) (hu i)
    have hbe1 : ∀ j, isNumN (fltAdd (s.beta j) (fltMul (Flt.num reg) (fltLogR (s.v j)))) :=
      fun j => consolidated_isNumN reg (hbe j) (hv j)
    refine ⟨hal1, hbe1, stabGetK_posN M reg hreg _ _ hal1 hbe1, ?_, ?_⟩
    · intro i
      exact isPosN_num (one_div_pos.mpr (Nat.cast_pos.mpr hn))
    · intro j
      exact isPosN_num (one_div_pos.mpr (Nat.cast_pos.mpr hm))
  · exact ⟨hal, hbe, hK, hu, hv⟩

theorem stabUpdate_posInv {n m : Nat} (a : Fin n → ℝ) (b : Fin m → ℝ)
    (M : Fin n → Fin m → ℝ) (reg stopThr : ℝ) (nax pp : Nat) (hn : 0 < n) (hm : 0 < m)
    (ha : ∀ i, 0 < a i) (hb : ∀ j, 0 < b j) (s1 : StabSt n m) (hs : stabPosInv s1) :
    stabPosInv (stabUpdate a b M reg stopThr nax pp s1) := by
  obtain ⟨hal, hbe, hK, hu, hv⟩ := hs
  have hv1 : ∀ j, isPosN (vecDivF (numVec b) (matTvecF s1.K s1.u) j) := fun j =>
    isPosN_div (isPosN_num (hb j)) (matTvecF_isPosN s1.K s1.u hn hK hu j)
  have hu1 : ∀ i, isPosN (vecDivF (numVec a)
      (matVecF s1.K (vecDivF (numVec b) (matTvecF s1.K s1.u))) i) := fun i =>
    isPosN_div (isPosN_num (ha i)) (matVecF_isPosN s1.K _ hm hK hv1 i)
  simp only [stabUpdate]
  by_cases hgd : (anyZeroV (matTvecF s1.K (vecDivF (numVec a)
      (matVecF s1.K (vecDivF (numVec b) (matTvecF s1.K s1.u))))) ||
      anyNanV (vecDivF (numVec a) (matVecF s1.K (vecDivF (numVec b) (matTvecF s1.K s1.u)))) ||
      anyNanV (vecDivF (numVec b) (matTvecF s1.K s1.u))) = true
  · rw [if_pos hgd]
    refine ⟨hal, hbe, hK, ?_, ?_⟩
    · intro i
      show isPosN ((if s1.cpt ≠ 0 then s1.u else vecDivF (numVec a)
        (matVecF s1.K (vecDivF (numVec b) (matTvecF s1.K s1.u)))) i)
      by_cases hc : s1.cpt ≠ 0
      · rw [if_pos hc]; exact hu i
      · rw [if_neg hc]; exact hu1 i
    · intro j
      show isPosN ((if s1.cpt ≠ 0 then s1.v
        else vecDivF (numVec b) (matTvecF s1.K s1.u)) j)
      by_cases hc : s1.cpt ≠ 0
      · rw [if_pos hc]; exact hv j
      · rw [if_neg hc]; exact hv1 j
  · rw [if_neg hgd]
    exact ⟨hal, hbe, hK, hu1, hv1⟩

theorem stabStep_posInv {n m : Nat} (a : Fin n → ℝ) (b : Fin m → ℝ)
    (M : Fin n → Fin m → ℝ) (reg tau stopThr : ℝ) (nax pp : Nat) (hn : 0 < n)
    (hm : 0 < m) (ha : ∀ i, 0 < a i) (hb : ∀ j, 0 < b j) (hreg : reg ≠ 0)
    (s : StabSt n m) (hs : stabPosInv s) :
    stabPosInv (stabStep a b M reg tau stopThr nax pp s) :=
  stabUpdate_posInv a b M reg stopThr nax pp hn hm ha hb _
    (stabAbsorb_posInv M reg tau hn hm hreg s hs)

theorem stabLoop_posInv {n m : Nat} (a : Fin n → ℝ) (b : Fin m → ℝ)
    (M : Fin n → Fin m → ℝ) (reg tau stopThr : ℝ) (nax pp : Nat) (hn : 0 < n)
    (hm : 0 < m) (ha : ∀ i, 0 < a i) (hb : ∀ j, 0 < b j) (hreg : reg ≠ 0) :
    ∀ (fuel : Nat) (s : StabSt n m), stabPosInv s →
      stabPosInv (stabLoop a b M reg tau stopThr nax pp fuel s)
  | 0, s, hs => hs
  | fuel + 1, s, hs => by
    by_cases hf : s.loopFlag = true
    · rw [show stabLoop a b M reg tau stopThr nax pp (fuel + 1) s =
          stabLoop a b M reg tau stopThr nax pp fuel
            (stabStep a b M reg tau stopThr nax pp s) from by simp [stabLoop, hf]]
      exact stabLoop_posInv a b M reg tau stopThr nax pp hn hm ha hb hreg fuel _
        (stabStep_posInv a b M reg tau stopThr nax pp hn hm ha hb hreg s hs)
    · rw [show stabLoop a b M reg tau stopThr nax pp (fuel + 1) s = s from by
        simp [stabLoop, hf]]
      exact hs

theorem stabInit_posInv {n m : Nat} (M : Fin n → Fin m → ℝ) (reg : ℝ) (hreg : reg ≠ 0)
    (hn : 0 < n) (hm : 0 < m) : stabPosInv (stabInitSt M reg none) := by
  refine ⟨fun i => ⟨0, rfl⟩, fun j => ⟨0, rfl⟩,
    stabGetK_posN M reg hreg _ _ (fun i => ⟨0, rfl⟩) (fun j => ⟨0, rfl⟩), ?_, ?_⟩
  · intro i
    exact isPosN_num (one_div_pos.mpr (Nat.cast_pos.mpr hn))
  · intro j
    exact isPosN_num (one_div_pos.mpr (Nat.cast_pos.mpr hm))

/-- C6 (amended): for marginals with all entries strictly positive (summing to
one) and a symmetric nonnegative cost matrix, every entry of the plan returned
by the plain Sinkhorn solver and of the plan returned by the stabilized
Sinkhorn solver is nonnegative.  (With merely nonnegative marginals the plain
solver can return NaN entries, see the counterexample.) -/
theorem claim_C6_amended {n : Nat} (a b : List ℝ) (M : Fin n → Fin n → ℝ) (reg : ℝ)
    (hn : 0 < n) (hla : a.length = n) (hlb : b.length = n)
    (hapos : ∀ x ∈ a, (0 : ℝ) < x) (hbpos : ∀ x ∈ b, (0 : ℝ) < x)
    (hasum : a.sum = 1) (hbsum : b.sum = 1)
    (hMsym : ∀ i j, M i j = M j i) (hMnn : ∀ i j, 0 ≤ M i j) (hreg : 0 < reg)
    (itmax : Nat) (thr : ℝ) (itmax2 : Nat) (tau thr2 : ℝ) (pp : Nat) :
    (∀ i j, fltLeb (Flt.num 0) (sinkhornPlan a b M reg itmax thr i j) = true) ∧
      ∀ i j, fltLeb (Flt.num 0)
        ((sinkhornStabilized a b M reg itmax2 tau thr2 none pp).Gamma i j) = true := by
  have hrne : reg ≠ 0 := ne_of_gt hreg
  have haR : ∀ i, 0 < margVec a n i := margVec_pos a hla hn hapos
  have hbR : ∀ i, 0 < margVec b n i := margVec_pos b hlb hn hbpos
  constructor
  · have hK : ∀ (i : Fin n) (j : Fin n), isPosN (expKR M reg i j) := fun i j =>
      ⟨_, rfl, Real.exp_pos _⟩
    have hKp : ∀ i j, isPosN (mkKp (margVec a n) (expKR M reg) i j) := by
      intro i j
      rw [show expKR M reg = numMat fun i j => Real.exp (-M i j / reg) from rfl,
        mkKp_num_apply _ _ (fun t => ne_of_gt (haR t)) i j]
      refine isPosN_num (mul_pos ?_ (Real.exp_pos _))
      have := haR i
      positivity
    have hbF : ∀ j, isPosN (numVec (margVec b n) j) := fun j => isPosN_num (hbR j)
    have hinit : sinkPosInv (sinkhornInitSt ℝ n n) := by
      refine ⟨fun i => isPosN_num ?_, fun j => isPosN_num ?_, Or.inl rfl⟩ <;>
        exact one_div_pos.mpr (Nat.cast_pos.mpr hn)
    have hfin := sinkhornLoop_posInv (numVec (margVec b n)) (expKR M reg)
      (mkKp (margVec a n) (expKR M reg)) thr itmax hn hn hbF hK hKp (itmax + 1)
      (sinkhornInitSt ℝ n n) hinit
    intro i j
    exact sinkhornPlanOf_nneg (expKR M reg) _ _ hK hfin.1 hfin.2.1 i j
  · have hfin := stabLoop_posInv (margVec a n) (margVec b n) M reg tau thr2 itmax2 pp
      hn hn haR hbR hrne (itmax2 + 2) (stabInitSt M reg none)
      (stabInit_posInv M reg hrne hn hn)
    intro i j
    exact stabGetGamma_nneg M reg hrne _ _ _ _ hfin.1 hfin.2.1 hfin.2.2.2.1
      hfin.2.2.2.2 i j

/-- C6 amended, witness: the strictly positive marginals (1/2, 1/2) with the
zero cost matrix and reg = 1 satisfy the hypotheses, and both solvers return
entrywise nonnegative plans. -/
theorem claim_C6_amended_witness :
    ((∀ x ∈ ([1 / 2, 1 / 2] : List ℝ), (0 : ℝ) < x) ∧
        ([1 / 2, 1 / 2] : List ℝ).sum = 1 ∧
        (∀ i j, cexM2 i j = cexM2 j i) ∧ (∀ i j, (0 : ℝ) ≤ cexM2 i j) ∧ (0 : ℝ) < 1) ∧
      (∀ i j, fltLeb (Flt.num 0)
        (sinkhornPlan [1 / 2, 1 / 2] [1 / 2, 1 / 2] cexM2 1 1000
          (1 / (10 : ℝ) ^ (9 : Nat)) i j) = true) ∧
      ∀ i j, fltLeb (Flt.num 0)
        ((sinkhornStabilized [1 / 2, 1 / 2] [1 / 2, 1 / 2] cexM2 1 1000
          ((10 : ℝ) ^ (3 : Nat)) (1 / (10 : ℝ) ^ (9 : Nat)) none 20).Gamma i j) = true := by
  have hpos : ∀ x ∈ ([1 / 2, 1 / 2] : List ℝ), (0 : ℝ) < x := by
    intro x hx
    simp only [List.mem_cons, List.not_mem_nil, or_false] at hx
    rcases hx with rfl | rfl <;> norm_num
  have hsum : ([1 / 2, 1 / 2] : List ℝ).sum = 1 := by
    simp [List.sum_cons]
    norm_num
  have h := claim_C6_amended [1 / 2, 1 / 2] [1 / 2, 1 / 2] cexM2 1 (by norm_num) rfl rfl
    hpos hpos hsum hsum (fun i j => rfl) (fun i j => le_refl 0) (by norm_num) 1000
    (1 / (10 : ℝ) ^ (9 : Nat)) 1000 ((10 : ℝ) ^ (3 : Nat)) (1 / (10 : ℝ) ^ (9 : Nat)) 20
  exact ⟨⟨hpos, hsum, fun i j => rfl, fun i j => le_refl 0, by norm_num⟩, h.1, h.2⟩
